import Mathlib

/-
  Shallow embedding of the core of the ptk parser toolkit
  (src/ptk/regex.py, src/ptk/lexer.py, src/ptk/grammar.py).

  Python `_State()` objects are identity-only sentinels; we model object
  identity with natural numbers drawn from an explicit counter that is
  threaded through every constructor, in the exact order in which the
  Python code allocates `_State()` objects.  Two states are "the same
  object" iff they carry the same number.
-/

/-- Character classes (regex.py `CharacterClass` hierarchy).
`rx` is the host-regex-delegated class (`RegexCharacterClass`), which keeps
the verbatim pattern; its membership test is delegated to an abstract host
predicate, since the `re` module is external to the repository. -/
inductive CClass where
  | any : CClass
  | lit : Char → CClass
  | rx : List Char → CClass
deriving DecidableEq, Repr

/-- `char in klass` (regex.py `__contains__` methods, text path):
`AnyCharacterClass` matches everything but a newline, `LitteralCharacterClass`
matches its single character, `RegexCharacterClass` delegates to the host. -/
def ccContains (host : List Char → Char → Bool) : CClass → Char → Bool
  | CClass.any, c => decide (c ≠ '\n')
  | CClass.lit x, c => decide (c = x)
  | CClass.rx pat, c => host pat c

/-- A transition `(startState, class-or-ε, endState)` (regex.py line 33). -/
abbrev RTrans := Nat × Option CClass × Nat

/-- regex.py `RegExpr`: transition list plus the two distinguished
state sentinels allocated by `__init__`.  The mutable `_currentState`
simulation set is passed explicitly to the simulation functions below. -/
structure RegExpr where
  transitions : List RTrans
  startState : Nat
  finalState : Nat
deriving DecidableEq, Repr

/-- The sentinel rewriting performed by `clone` on one transition endpoint:
`if x is self._startState: x = result._startState` followed by the check
against `_finalState` (the second `if` can only fire when the first did not,
because the fresh clone sentinels are distinct objects from the originals). -/
def renameSF (oldS oldF newS newF : Nat) (x : Nat) : Nat :=
  if x = oldS then newS else if x = oldF then newF else x

def renameSFT (oldS oldF newS newF : Nat) (t : RTrans) : RTrans :=
  (renameSF oldS oldF newS newF t.1, t.2.1, renameSF oldS oldF newS newF t.2.2)

/-- regex.py `RegExpr.clone` (lines 39-58): fresh start/final
sentinels, transitions rewritten only at the old sentinels.  Intermediate
states are carried over verbatim. -/
def RegExpr.clone (r : RegExpr) (c : Nat) :
    RegExpr × Nat :=
  (⟨r.transitions.map (renameSFT r.startState r.finalState c (c + 1)), c, c + 1⟩,
   c + 2)

/-- regex.py `RegExpr.fromClass` (lines 60-69). -/
def RegExpr.fromClass (k : CClass) (c : Nat) :
    RegExpr × Nat :=
  (⟨[(c, some k, c + 1)], c, c + 1⟩, c + 2)

/-- `[rx.clone() for rx in rxs]`, threading the state counter left to right. -/
def cloneList : List RegExpr → Nat → List RegExpr × Nat
  | [], c => ([], c)
  | r :: rs, c =>
    let p := r.clone c
    let q := cloneList rs p.2
    (p.1 :: q.1, q.2)

/-- Rewriting `rx2`'s start sentinel to `rx1`'s final sentinel when chaining
two cloned operands in `concat` (regex.py lines 82-88). -/
def renameStartT (oldS newS : Nat) (t : RTrans) : RTrans :=
  ((if t.1 = oldS then newS else t.1), t.2.1,
   (if t.2.2 = oldS then newS else t.2.2))

/-- The transitions contributed by the second and later operands of `concat`:
for each consecutive pair, the later operand's transitions with its start
state identified with the earlier operand's final state. -/
def joinTail (prev : RegExpr) :
    List RegExpr → List RTrans
  | [] => []
  | r :: rs =>
    r.transitions.map (renameStartT r.startState prev.finalState) ++ joinTail r rs

/-- `rxs[-1]._finalState` for a nonempty clone list headed by `r`. -/
def lastFinal (r : RegExpr) : List RegExpr → Nat
  | [] => r.finalState
  | x :: xs => lastFinal x xs

/-- regex.py `RegExpr.concat` (lines 71-93): clone the operands,
then either build the single-ε-transition NFA (no operands) or chain the
clones.  The `RegExpr()` result object allocates its own two
sentinels after the clones, which the nonempty case then overwrites; the
counter advances past them either way. -/
def RegExpr.concat (rxs : List RegExpr) (c : Nat) :
    RegExpr × Nat :=
  let p := cloneList rxs c
  match p.1 with
  | [] => (⟨[(p.2, none, p.2 + 1)], p.2, p.2 + 1⟩, p.2 + 2)
  | r0 :: rest =>
    (⟨r0.transitions ++ joinTail r0 rest, r0.startState, lastFinal r0 rest⟩,
     p.2 + 2)

/-- The transition list accumulated by the `union` loop (regex.py 102-105):
each clone's transitions followed by the two ε edges hooking it to the fresh
start and final sentinels. -/
def unionFold (rs rf : Nat) : List RegExpr → List RTrans
  | [] => []
  | r :: rest =>
    r.transitions ++ [(rs, none, r.startState), (r.finalState, none, rf)] ++
      unionFold rs rf rest

/-- regex.py `RegExpr.union` (lines 95-107): the result object
(and its two sentinels) is allocated before the operand clones. -/
def RegExpr.union (rxs : List RegExpr) (c : Nat) :
    RegExpr × Nat :=
  let p := cloneList rxs (c + 2)
  (⟨unionFold c (c + 1) p.1, c, c + 1⟩, p.2)

/-- regex.py `RegExpr.kleene` (lines 109-122).  Note that `kleene`
does not clone its operand: the operand's transitions and states are embedded
directly, with only the two result sentinels fresh. -/
def RegExpr.kleene (r : RegExpr) (c : Nat) :
    RegExpr × Nat :=
  (⟨r.transitions ++
      [(c, none, c + 1), (r.finalState, none, r.startState),
       (c, none, r.startState), (r.finalState, none, c + 1)], c, c + 1⟩,
   c + 2)

/-- `[concat(*[rx]*count) for count in counts]`, threading the counter. -/
def concatPow (r : RegExpr) : List Nat → Nat → List RegExpr × Nat
  | [], c => ([], c)
  | n :: ns, c =>
    let p := RegExpr.concat (List.replicate n r) c
    let q := concatPow r ns p.2
    (p.1 :: q.1, q.2)

/-- The bounded branch of regex.py `RegExpr.exponent` (lines
134-136): `union(*[concat(*[rx]*count) for count in range(min, max+1)])`. -/
def RegExpr.exponentB (r : RegExpr) (lo m : Nat) (c : Nat) :
    RegExpr × Nat :=
  let p := concatPow r (List.range' lo (m + 1 - lo)) c
  RegExpr.union p.1 p.2

/-- regex.py `RegExpr.exponent` (lines 124-136). -/
def RegExpr.exponent (r : RegExpr) (lo : Nat)
    (hi : Option Nat) (c : Nat) : RegExpr × Nat :=
  match hi with
  | some m => RegExpr.exponentB r lo m c
  | none =>
    let p := RegExpr.exponentB r lo lo c
    let q := RegExpr.kleene r p.2
    RegExpr.concat [p.1, q.1] q.2

/-- One round of the `_epsilonClose` loop (regex.py 140-151): add every state
reachable from the current set by a single ε transition. -/
def epsStep (ts : List RTrans) (states : Finset Nat) : Finset Nat :=
  states ∪ (ts.filterMap (fun t =>
    match t.2.1 with
    | none => if t.1 ∈ states then some t.2.2 else none
    | some _ => none)).toFinset

/-- The `while True` fix-point loop of `_epsilonClose`, with explicit fuel. -/
def epsCloseAux (ts : List RTrans) : Nat → Finset Nat → Finset Nat
  | 0, st => st
  | f + 1, st =>
    if epsStep ts st = st then st else epsCloseAux ts f (epsStep ts st)

/-- regex.py `RegExpr._epsilonClose`: each productive round adds at
least one transition end state, so `length ts + 1` rounds always reach the
fix point. -/
def epsilonClose (ts : List RTrans) (st : Finset Nat) : Finset Nat :=
  epsCloseAux ts (ts.length + 1) st

/-- regex.py `RegExpr._closure` (lines 153-158): end states of the
non-ε transitions leaving the current set whose class contains `ch`. -/
def moveSet (host : List Char → Char → Bool) (ts : List RTrans)
    (cur : Finset Nat) (ch : Char) : Finset Nat :=
  (ts.filterMap (fun t =>
    match t.2.1 with
    | some k => if t.1 ∈ cur then (if ccContains host k ch then some t.2.2 else none) else none
    | none => none)).toFinset

/-- regex.py `RegExpr.start` (lines 160-165). -/
def RegExpr.startSet (r : RegExpr) : Finset Nat :=
  epsilonClose r.transitions {r.startState}

/-- regex.py `RegExpr.feed` (lines 167-174): replace the current
set by the ε-closure of the one-character move; `none` models raising
`DeadState` on an empty result, `some (accepted, next)` models returning
whether the final state is in the new current set. -/
def RegExpr.feedChar (host : List Char → Char → Bool)
    (r : RegExpr) (cur : Finset Nat) (ch : Char) :
    Option (Bool × Finset Nat) :=
  if epsilonClose r.transitions (moveSet host r.transitions cur ch) = ∅ then
    none
  else
    some (decide (r.finalState ∈ epsilonClose r.transitions (moveSet host r.transitions cur ch)),
          epsilonClose r.transitions (moveSet host r.transitions cur ch))

/-- `_startStates` (recomputed set of transition source states). -/
def srcStates (ts : List RTrans) : Finset Nat := (ts.map (·.1)).toFinset

/-- regex.py `RegExpr.isDeadEnd` (lines 176-180). -/
def RegExpr.isDeadEnd (r : RegExpr) (cur : Finset Nat) :
    Bool :=
  decide (cur ≠ ∅) && decide (∀ s ∈ cur, s ∉ srcStates r.transitions)

/-- The character loop of regex.py `RegExpr.match`: on `DeadState`
return false, otherwise check the final state after the last character. -/
def matchList (host : List Char → Char → Bool) (r : RegExpr)
    (cur : Finset Nat) : List Char → Bool
  | [] => decide (r.finalState ∈ cur)
  | ch :: rest =>
    match r.feedChar host cur ch with
    | none => false
    | some p => matchList host r p.2 rest

/-- regex.py `RegExpr.match` (lines 182-192). -/
def RegExpr.matchString (host : List Char → Char → Bool)
    (r : RegExpr) (s : String) : Bool :=
  matchList host r r.startSet s.data

/-- A host predicate for runs that never exercise a delegated class. -/
def noHost : List Char → Char → Bool := fun _ _ => false

/-
  Mathematical characterization of the ε-closure loop, written from the
  claim's/spec's wording: "ε-closure is a standard reachability fix point
  over ε-transitions"; a character move collects the states reachable by one
  transition whose character class contains the character.
-/

/-- There is an ε transition from `a` to `b` in the transition list. -/
def epsEdge (ts : List RTrans) (a b : Nat) : Prop :=
  (a, (none : Option CClass), b) ∈ ts

/-- Spec-side one-character move: states reachable from `cur` by one
transition whose class contains `ch`. -/
def oneMove (host : List Char → Char → Bool) (ts : List RTrans)
    (cur : Finset Nat) (ch : Char) (b : Nat) : Prop :=
  ∃ a k, a ∈ cur ∧ (a, some k, b) ∈ ts ∧ ccContains host k ch = true

/-- Spec-side ε-closure membership: reachable from the set by zero or more
ε transitions. -/
def epsReach (ts : List RTrans) (st : Finset Nat) (x : Nat) : Prop :=
  ∃ a ∈ st, Relation.ReflTransGen (epsEdge ts) a x

/-- End states of the transition list; every state the closure loop can add
is one of them. -/
def endStates (ts : List RTrans) : Finset Nat := (ts.map (fun t => t.2.2)).toFinset

lemma subset_epsStep (ts : List RTrans) (st : Finset Nat) : st ⊆ epsStep ts st :=
  Finset.subset_union_left

lemma mem_epsStep (ts : List RTrans) (st : Finset Nat) (x : Nat) :
    x ∈ epsStep ts st ↔ x ∈ st ∨ ∃ a, a ∈ st ∧ epsEdge ts a x := by
  unfold epsStep
  rw [Finset.mem_union, List.mem_toFinset, List.mem_filterMap]
  constructor
  · rintro (h | ⟨⟨a, k, b⟩, ht, hf⟩)
    · exact Or.inl h
    · cases k with
      | none =>
        simp only at hf
        split at hf
        · cases hf
          exact Or.inr ⟨a, by assumption, ht⟩
        · cases hf
      | some k => cases hf
  · rintro (h | ⟨a, ha, he⟩)
    · exact Or.inl h
    · exact Or.inr ⟨(a, none, x), he, by simp [ha]⟩

lemma subset_epsCloseAux (ts : List RTrans) :
    ∀ (f : Nat) (st : Finset Nat), st ⊆ epsCloseAux ts f st := by
  intro f
  induction f with
  | zero => intro st; exact le_refl st
  | succ f ih =>
    intro st
    unfold epsCloseAux
    split
    · exact le_refl st
    · exact (subset_epsStep ts st).trans (ih _)

lemma epsCloseAux_reach (ts : List RTrans) :
    ∀ (f : Nat) (st : Finset Nat) (x : Nat),
      x ∈ epsCloseAux ts f st → epsReach ts st x := by
  intro f
  induction f with
  | zero => intro st x hx; exact ⟨x, hx, Relation.ReflTransGen.refl⟩
  | succ f ih =>
    intro st x hx
    unfold epsCloseAux at hx
    split at hx
    · exact ⟨x, hx, Relation.ReflTransGen.refl⟩
    · obtain ⟨a, ha, hr⟩ := ih _ x hx
      rcases (mem_epsStep ts st a).1 ha with h | ⟨a0, ha0, he⟩
      · exact ⟨a, h, hr⟩
      · exact ⟨a0, ha0, Relation.ReflTransGen.head he hr⟩

lemma epsCloseAux_growth (ts : List RTrans) :
    ∀ (f : Nat) (st : Finset Nat),
      epsStep ts (epsCloseAux ts f st) = epsCloseAux ts f st ∨
        st.card + f ≤ (epsCloseAux ts f st).card := by
  intro f
  induction f with
  | zero => intro st; exact Or.inr (by simp [epsCloseAux])
  | succ f ih =>
    intro st
    unfold epsCloseAux
    split
    · rename_i h
      exact Or.inl (by simpa [epsCloseAux] using h)
    · rename_i h
      rcases ih (epsStep ts st) with h1 | h1
      · exact Or.inl h1
      · refine Or.inr ?_
        have hlt : st.card < (epsStep ts st).card :=
          Finset.card_lt_card (lt_of_le_of_ne (subset_epsStep ts st) (Ne.symm h))
        omega

lemma epsCloseAux_subset_ends (ts : List RTrans) :
    ∀ (f : Nat) (st : Finset Nat),
      epsCloseAux ts f st ⊆ st ∪ endStates ts := by
  intro f
  induction f with
  | zero => intro st; exact Finset.subset_union_left
  | succ f ih =>
    intro st
    unfold epsCloseAux
    split
    · exact Finset.subset_union_left
    · refine (ih (epsStep ts st)).trans ?_
      apply Finset.union_subset
      · intro x hx
        rcases (mem_epsStep ts st x).1 hx with h | ⟨a, _, he⟩
        · exact Finset.mem_union_left _ h
        · refine Finset.mem_union_right _ ?_
          unfold endStates
          rw [List.mem_toFinset, List.mem_map]
          exact ⟨(a, none, x), he, rfl⟩
      · exact Finset.subset_union_right

lemma epsilonClose_fixed (ts : List RTrans) (st : Finset Nat) :
    epsStep ts (epsilonClose ts st) = epsilonClose ts st := by
  rcases epsCloseAux_growth ts (ts.length + 1) st with h | h
  · exact h
  · exfalso
    have h2 : (epsCloseAux ts (ts.length + 1) st).card ≤ (st ∪ endStates ts).card :=
      Finset.card_le_card (epsCloseAux_subset_ends ts _ st)
    have h3 : (st ∪ endStates ts).card ≤ st.card + (endStates ts).card :=
      Finset.card_union_le st (endStates ts)
    have h4 : (endStates ts).card ≤ ts.length := by
      unfold endStates
      exact le_trans (List.toFinset_card_le _) (le_of_eq (List.length_map ts _))
    unfold epsilonClose at *
    omega

lemma epsilonClose_closed (ts : List RTrans) (st : Finset Nat) {a x : Nat}
    (ha : a ∈ epsilonClose ts st)
    (hr : Relation.ReflTransGen (epsEdge ts) a x) : x ∈ epsilonClose ts st := by
  induction hr with
  | refl => exact ha
  | tail _ he ih =>
    have := (mem_epsStep ts (epsilonClose ts st) _).2 (Or.inr ⟨_, ih, he⟩)
    rwa [epsilonClose_fixed ts st] at this

/-- The fuelled `_epsilonClose` loop computes exactly ε-reachability from the
input set. -/
lemma mem_epsilonClose (ts : List RTrans) (st : Finset Nat) (x : Nat) :
    x ∈ epsilonClose ts st ↔ epsReach ts st x := by
  constructor
  · exact epsCloseAux_reach ts _ st x
  · rintro ⟨a, ha, hr⟩
    exact epsilonClose_closed ts st (subset_epsCloseAux ts _ st ha) hr

/-- `_closure` computes exactly the one-character move of the claim. -/
lemma mem_moveSet (host : List Char → Char → Bool) (ts : List RTrans)
    (cur : Finset Nat) (ch : Char) (x : Nat) :
    x ∈ moveSet host ts cur ch ↔ oneMove host ts cur ch x := by
  unfold moveSet oneMove
  rw [List.mem_toFinset, List.mem_filterMap]
  constructor
  · rintro ⟨⟨a, k, b⟩, ht, hf⟩
    cases k with
    | none => cases hf
    | some k =>
      simp only at hf
      split at hf
      · split at hf
        · cases hf
          exact ⟨a, k, by assumption, ht, by assumption⟩
        · cases hf
      · cases hf
  · rintro ⟨a, k, ha, ht, hc⟩
    exact ⟨(a, some k, x), ht, by simp [ha, hc]⟩

/-- The set described by the claim for `feed(ch)`: the ε-closure of the set
of states reachable from the current set by one transition whose character
class contains `ch`. -/
def feedSpecSet (host : List Char → Char → Bool) (ts : List RTrans)
    (cur : Finset Nat) (ch : Char) (x : Nat) : Prop :=
  ∃ b, oneMove host ts cur ch b ∧ Relation.ReflTransGen (epsEdge ts) b x

lemma mem_feedNext (host : List Char → Char → Bool) (ts : List RTrans)
    (cur : Finset Nat) (ch : Char) (x : Nat) :
    x ∈ epsilonClose ts (moveSet host ts cur ch) ↔ feedSpecSet host ts cur ch x := by
  rw [mem_epsilonClose]
  unfold epsReach feedSpecSet
  constructor
  · rintro ⟨a, ha, hr⟩
    exact ⟨a, (mem_moveSet host ts cur ch a).1 ha, hr⟩
  · rintro ⟨a, ha, hr⟩
    exact ⟨a, (mem_moveSet host ts cur ch a).2 ha, hr⟩

/-- C6: for every NFA with a non-empty current-state set and every character,
`feed` replaces the current set with the ε-closure of the one-character move
(the ε-closure being genuine reachability along ε transitions), raises
`DeadState` (modelled as `none`) exactly when that set is empty, and
otherwise reports acceptance exactly when the final state lies in the new
current set. -/
theorem C6_feed_closure_spec (host : List Char → Char → Bool) (r : RegExpr)
    (cur : Finset Nat) (ch : Char) (_h : cur.Nonempty) :
    (r.feedChar host cur ch = none ↔
      ∀ x, ¬ feedSpecSet host r.transitions cur ch x) ∧
    (∀ b cs, r.feedChar host cur ch = some (b, cs) →
      (∀ x, x ∈ cs ↔ feedSpecSet host r.transitions cur ch x) ∧
      (b = true ↔ r.finalState ∈ cs)) := by
  unfold RegExpr.feedChar
  constructor
  · split
    · rename_i hemp
      refine iff_of_true rfl ?_
      intro x hx
      have := (mem_feedNext host r.transitions cur ch x).2 hx
      rw [hemp] at this
      exact absurd this (Finset.not_mem_empty x)
    · rename_i hemp
      obtain ⟨x, hx⟩ := Finset.nonempty_iff_ne_empty.2 hemp
      exact iff_of_false (by simp)
        (fun hall => hall x ((mem_feedNext host r.transitions cur ch x).1 hx))
  · intro b cs h
    split at h
    · cases h
    · cases h
      exact ⟨fun x => mem_feedNext host r.transitions cur ch x, by simp⟩

/-
  Concrete NFAs used by several claims.  `reAB` is
  `concat(fromClass('a'), fromClass('b'))` with the state counter threaded
  exactly as the Python allocation order would number `_State()` objects
  starting from 0.
-/

def reA : RegExpr := (RegExpr.fromClass (CClass.lit 'a') 0).1

def reB : RegExpr := (RegExpr.fromClass (CClass.lit 'b') 2).1

def reAB : RegExpr := (RegExpr.concat [reA, reB] 4).1

/-- All states occurring in an NFA: the two sentinels and every transition
endpoint. -/
def statesOf (r : RegExpr) : Finset Nat :=
  insert r.startState (insert r.finalState
    ((r.transitions.map (·.1)) ++ (r.transitions.map (·.2.2))).toFinset)

/-- States are below the counter: every NFA produced by the constructors with
a counter discipline satisfies this for the final counter. -/
def WFcounter (r : RegExpr) (c : Nat) : Prop := ∀ x ∈ statesOf r, x < c

/-- C1: the code violates the claim.  `reAB` (the NFA of `ab`, whose states
are `4 →a→ 5 →b→ 7`) has intermediate state `5`; `clone` rewrites only the
start/final sentinels, so the clone shares the intermediate state `5` with
the original — state identities are not disjoint.  Consequently
`concat(reAB, reAB)` (language should be exactly `"abab"`) also accepts
`"ab"`: since `reAB` itself accepts `"ab"` and rejects `""`, `"a"` and
`"b"`, the string `"ab"` admits no split into two words of `L(reAB)`, yet
the composite's `match` returns true on it. -/
theorem C1_clone_shares_states : 
    (5 ∈ statesOf reAB ∧ 5 ∈ statesOf (reAB.clone 10).1) ∧
    RegExpr.matchString noHost reAB "ab" = true ∧
    RegExpr.matchString noHost reAB "" = false ∧
    RegExpr.matchString noHost reAB "a" = false ∧
    RegExpr.matchString noHost reAB "b" = false ∧
    RegExpr.matchString noHost (RegExpr.concat [reAB, reAB] 10).1 "ab" = true ∧
    RegExpr.matchString noHost (RegExpr.concat [reAB, reAB] 10).1 "abab" = true := by
  decide

lemma epsStep_empty (ts : List RTrans) : epsStep ts ∅ = ∅ := by
  unfold epsStep
  rw [Finset.union_comm, Finset.union_empty]
  rw [Finset.eq_empty_iff_forall_not_mem]
  intro x hx
  rw [List.mem_toFinset, List.mem_filterMap] at hx
  obtain ⟨⟨a, k, b⟩, _, hf⟩ := hx
  cases k with
  | none => simp at hf
  | some k => cases hf

lemma epsilonClose_empty (ts : List RTrans) : epsilonClose ts ∅ = ∅ := by
  unfold epsilonClose
  cases h : ts.length + 1 with
  | zero => rfl
  | succ f => unfold epsCloseAux; rw [epsStep_empty]; simp

lemma moveSet_of_no_class (host : List Char → Char → Bool) (ts : List RTrans)
    (cur : Finset Nat) (ch : Char)
    (h : ∀ t ∈ ts, t.2.1 = (none : Option CClass)) :
    moveSet host ts cur ch = ∅ := by
  unfold moveSet
  have : ts.filterMap (fun t =>
      match t.2.1 with
      | some k => if t.1 ∈ cur then (if ccContains host k ch then some t.2.2 else none) else none
      | none => none) = [] := by
    rw [List.filterMap_eq_nil_iff]
    intro t ht
    rw [h t ht]
  rw [this]
  rfl

/-- An NFA none of whose transitions carries a character class dies on the
first character and can only accept the empty word. -/
lemma matchList_no_class (host : List Char → Char → Bool) (r : RegExpr)
    (h : ∀ t ∈ r.transitions, t.2.1 = (none : Option CClass))
    (cur : Finset Nat) (l : List Char) :
    matchList host r cur l = true ↔ (l = [] ∧ r.finalState ∈ cur) := by
  cases l with
  | nil => simp [matchList]
  | cons c rest =>
    have : r.feedChar host cur c = none := by
      unfold RegExpr.feedChar
      rw [moveSet_of_no_class host _ cur c h, epsilonClose_empty]
      simp
    simp [matchList, this]

/-- Witness for C6 at a concrete input: the current set `{4}` of `reAB` is
non-empty and feeding `'a'` satisfies the specification. -/
theorem C6_feed_closure_spec_witness :
    ({4} : Finset Nat).Nonempty ∧
    ((reAB.feedChar noHost ({4} : Finset Nat) 'a' = none ↔
      ∀ x, ¬ feedSpecSet noHost reAB.transitions ({4} : Finset Nat) 'a' x) ∧
    (∀ b cs, reAB.feedChar noHost ({4} : Finset Nat) 'a' = some (b, cs) →
      (∀ x, x ∈ cs ↔ feedSpecSet noHost reAB.transitions ({4} : Finset Nat) 'a' x) ∧
      (b = true ↔ reAB.finalState ∈ cs))) :=
  ⟨⟨4, by decide⟩, C6_feed_closure_spec noHost reAB {4} 'a' ⟨4, by decide⟩⟩

/-- C10: zero-operand `concat` builds the two-sentinel NFA with the single
ε transition from its start to its final state, that NFA accepts exactly the
empty string, and `exponent(r, 0, 0)` — which is `union(concat())`,
independent of `r` — also accepts exactly the empty string. -/
theorem C10_concat_empty_exponent_zero :
    (∀ c, RegExpr.concat [] c =
      (⟨[(c, none, c + 1)], c, c + 1⟩, c + 2)) ∧
    (∀ host s, RegExpr.matchString host (RegExpr.concat [] 0).1 s = true ↔ s = "") ∧
    (∀ r host s,
      RegExpr.matchString host (RegExpr.exponent r 0 (some 0) 0).1 s = true ↔ s = "") := by
  refine ⟨fun c => rfl, fun host s => ?_, fun r host s => ?_⟩
  · unfold RegExpr.matchString
    rw [matchList_no_class host _ (by decide) _ s.data]
    have hfin : (RegExpr.concat [] 0).1.finalState ∈ (RegExpr.concat [] 0).1.startSet := by
      decide
    rw [show (s = "") ↔ (s.data = "".data) from ⟨fun h => h ▸ rfl, String.ext⟩]
    simp [hfin]
  · have hred : RegExpr.exponent r 0 (some 0) 0 =
        (⟨[(4, none, 5), (2, none, 4), (5, none, 3)], 2, 3⟩, 6) := rfl
    unfold RegExpr.matchString
    rw [hred]
    rw [matchList_no_class host _ (by decide) _ s.data]
    rw [show (s = "") ↔ (s.data = "".data) from ⟨fun h => h ▸ rfl, String.ext⟩]
    have hfin : (⟨[(4, none, 5), (2, none, 4), (5, none, 3)], 2, 3⟩ : RegExpr).finalState ∈
        (⟨[(4, none, 5), (2, none, 4), (5, none, 3)], 2, 3⟩ : RegExpr).startSet := by
      decide
    simp [hfin]

/-
  Freshness of the construction primitives' sentinels (claim C7).
-/

lemma cloneList_sentinels_ge (rxs : List RegExpr) :
    ∀ c, ∀ r' ∈ (cloneList rxs c).1, c ≤ r'.startState ∧ c ≤ r'.finalState := by
  induction rxs with
  | nil => intro c r' h; cases h
  | cons r rs ih =>
    intro c r' h
    unfold cloneList at h
    rcases List.mem_cons.1 h with h | h
    · subst h
      exact ⟨le_refl c, Nat.le_succ c⟩
    · have := ih (c + 2) r' h
      omega

lemma lastFinal_prop (p : Nat → Prop) :
    ∀ (l : List RegExpr) (r : RegExpr), p r.finalState →
      (∀ x ∈ l, p x.finalState) → p (lastFinal r l) := by
  intro l
  induction l with
  | nil => intro r hr _; exact hr
  | cons x xs ih =>
    intro r _ hl
    unfold lastFinal
    exact ih x (hl x (List.mem_cons_self x xs)) (fun y hy => hl y (List.mem_cons_of_mem x hy))

lemma concat_startState_eq (rxs : List RegExpr) (c : Nat) :
    (RegExpr.concat rxs c).1.startState = c := by
  cases rxs with
  | nil => rfl
  | cons r rs => rfl

lemma concat_finalState_ge (rxs : List RegExpr) (c : Nat) :
    c ≤ (RegExpr.concat rxs c).1.finalState := by
  cases rxs with
  | nil =>
    show c ≤ c + 1
    omega
  | cons r rs =>
    show c ≤ lastFinal ((RegExpr.clone r c).1)
      (cloneList rs ((RegExpr.clone r c).2)).1
    refine lastFinal_prop (fun n => c ≤ n) _ _ (Nat.le_succ c) ?_
    intro x hx
    have := cloneList_sentinels_ge rs (c + 2) x hx
    omega

lemma union_sentinels (rxs : List RegExpr) (c : Nat) :
    (RegExpr.union rxs c).1.startState = c ∧
    (RegExpr.union rxs c).1.finalState = c + 1 := ⟨rfl, rfl⟩

lemma kleene_sentinels (r : RegExpr) (c : Nat) :
    (RegExpr.kleene r c).1.startState = c ∧
    (RegExpr.kleene r c).1.finalState = c + 1 := ⟨rfl, rfl⟩

lemma cloneList_counter_ge (rxs : List RegExpr) :
    ∀ c, c ≤ (cloneList rxs c).2 := by
  induction rxs with
  | nil => intro c; exact le_refl c
  | cons r rs ih =>
    intro c
    have := ih (c + 2)
    show c ≤ (cloneList rs (c + 2)).2
    omega

lemma concat_counter_ge (rxs : List RegExpr) (c : Nat) :
    c ≤ (RegExpr.concat rxs c).2 := by
  have h := cloneList_counter_ge rxs c
  cases rxs with
  | nil =>
    show c ≤ c + 2
    omega
  | cons r rs =>
    have h2 := cloneList_counter_ge rs (c + 2)
    show c ≤ (cloneList rs (c + 2)).2 + 2
    omega

lemma concatPow_counter_ge (r : RegExpr) (ns : List Nat) :
    ∀ c, c ≤ (concatPow r ns c).2 := by
  induction ns with
  | nil => intro c; exact le_refl c
  | cons n ns ih =>
    intro c
    have h1 := concat_counter_ge (List.replicate n r) c
    have h2 := ih (RegExpr.concat (List.replicate n r) c).2
    show c ≤ (concatPow r ns (RegExpr.concat (List.replicate n r) c).2).2
    omega

lemma exponentB_sentinels_ge (r : RegExpr) (lo m c : Nat) :
    c ≤ (RegExpr.exponentB r lo m c).1.startState ∧
    c ≤ (RegExpr.exponentB r lo m c).1.finalState := by
  have h := concatPow_counter_ge r (List.range' lo (m + 1 - lo)) c
  constructor
  · show c ≤ (concatPow r (List.range' lo (m + 1 - lo)) c).2
    omega
  · show c ≤ (concatPow r (List.range' lo (m + 1 - lo)) c).2 + 1
    omega

lemma exponentB_counter_ge (r : RegExpr) (lo m c : Nat) :
    c ≤ (RegExpr.exponentB r lo m c).2 := by
  have h1 := concatPow_counter_ge r (List.range' lo (m + 1 - lo)) c
  have h2 := cloneList_counter_ge (concatPow r (List.range' lo (m + 1 - lo)) c).1
    ((concatPow r (List.range' lo (m + 1 - lo)) c).2 + 2)
  show c ≤ (cloneList (concatPow r (List.range' lo (m + 1 - lo)) c).1
    ((concatPow r (List.range' lo (m + 1 - lo)) c).2 + 2)).2
  omega

lemma exponent_sentinels_ge (r : RegExpr) (lo : Nat) (hi : Option Nat) (c : Nat) :
    c ≤ (RegExpr.exponent r lo hi c).1.startState ∧
    c ≤ (RegExpr.exponent r lo hi c).1.finalState := by
  cases hi with
  | some m => exact exponentB_sentinels_ge r lo m c
  | none =>
    have h1 := exponentB_counter_ge r lo lo c
    have hs := concat_startState_eq
      [(RegExpr.exponentB r lo lo c).1, (RegExpr.kleene r (RegExpr.exponentB r lo lo c).2).1]
      ((RegExpr.exponentB r lo lo c).2 + 2)
    have hf := concat_finalState_ge
      [(RegExpr.exponentB r lo lo c).1, (RegExpr.kleene r (RegExpr.exponentB r lo lo c).2).1]
      ((RegExpr.exponentB r lo lo c).2 + 2)
    constructor
    · show c ≤ (RegExpr.concat
        [(RegExpr.exponentB r lo lo c).1, (RegExpr.kleene r (RegExpr.exponentB r lo lo c).2).1]
        ((RegExpr.exponentB r lo lo c).2 + 2)).1.startState
      omega
    · show c ≤ (RegExpr.concat
        [(RegExpr.exponentB r lo lo c).1, (RegExpr.kleene r (RegExpr.exponentB r lo lo c).2).1]
        ((RegExpr.exponentB r lo lo c).2 + 2)).1.finalState
      omega

lemma WFcounter.not_mem {r : RegExpr} {c x : Nat} (h : WFcounter r c)
    (hx : c ≤ x) : x ∉ statesOf r :=
  fun hmem => absurd (h x hmem) (by omega)

/-- C7: each construction primitive's start and final sentinels are fresh:
distinct from every state of every operand (given that the operands' states
were allocated below the current counter, which the allocation discipline
guarantees).  In the functional embedding the primitives are pure functions
of their operands, mirroring the fact that the Python code never writes to
an operand's `_transitions`, `_startState`, `_finalState` or `_currentState`
(it only reads them, copying transition lists into the result). -/
theorem C7_primitives_fresh_sentinels :
    (∀ k c, (RegExpr.fromClass k c).1.startState = c ∧
      (RegExpr.fromClass k c).1.finalState = c + 1) ∧
    (∀ rxs c, (∀ r ∈ rxs, WFcounter r c) → ∀ r ∈ rxs,
      (RegExpr.concat rxs c).1.startState ∉ statesOf r ∧
      (RegExpr.concat rxs c).1.finalState ∉ statesOf r) ∧
    (∀ rxs c, (∀ r ∈ rxs, WFcounter r c) → ∀ r ∈ rxs,
      (RegExpr.union rxs c).1.startState ∉ statesOf r ∧
      (RegExpr.union rxs c).1.finalState ∉ statesOf r) ∧
    (∀ r c, WFcounter r c →
      (RegExpr.kleene r c).1.startState ∉ statesOf r ∧
      (RegExpr.kleene r c).1.finalState ∉ statesOf r) ∧
    (∀ r lo hi c, WFcounter r c →
      (RegExpr.exponent r lo hi c).1.startState ∉ statesOf r ∧
      (RegExpr.exponent r lo hi c).1.finalState ∉ statesOf r) := by
  refine ⟨fun k c => ⟨rfl, rfl⟩, ?_, ?_, ?_, ?_⟩
  · intro rxs c hwf r hr
    exact ⟨(hwf r hr).not_mem (le_of_eq (concat_startState_eq rxs c).symm),
           (hwf r hr).not_mem (concat_finalState_ge rxs c)⟩
  · intro rxs c hwf r hr
    refine ⟨(hwf r hr).not_mem (le_of_eq (union_sentinels rxs c).1.symm),
           (hwf r hr).not_mem ?_⟩
    rw [(union_sentinels rxs c).2]
    omega
  · intro r c hwf
    refine ⟨(hwf).not_mem (le_of_eq (kleene_sentinels r c).1.symm),
           (hwf).not_mem ?_⟩
    rw [(kleene_sentinels r c).2]
    omega
  · intro r lo hi c hwf
    exact ⟨(hwf).not_mem (exponent_sentinels_ge r lo hi c).1,
           (hwf).not_mem (exponent_sentinels_ge r lo hi c).2⟩

/-- Witness for C7: concrete `WFcounter` facts discharged at `reAB` (all of
whose states are below 10). -/
theorem C7_primitives_fresh_sentinels_witness :
    (∀ r ∈ [reAB], WFcounter r 10) ∧
    ((RegExpr.concat [reAB] 10).1.startState ∉ statesOf reAB ∧
     (RegExpr.concat [reAB] 10).1.finalState ∉ statesOf reAB) ∧
    ((RegExpr.kleene reAB 10).1.startState ∉ statesOf reAB ∧
     (RegExpr.kleene reAB 10).1.finalState ∉ statesOf reAB) := by
  have hwfAB : WFcounter reAB 10 := by
    show ∀ x ∈ statesOf reAB, x < 10
    decide
  have hwf : ∀ r ∈ [reAB], WFcounter r 10 := by
    intro r hr
    rcases List.mem_singleton.1 hr with h
    subst h
    exact hwfAB
  refine ⟨hwf, ?_, ?_⟩
  · exact C7_primitives_fresh_sentinels.2.1 [reAB] 10 hwf reAB (List.mem_singleton.2 rfl)
  · exact C7_primitives_fresh_sentinels.2.2.2.1 reAB 10 hwfAB

/-
  Embedding of regex.py `RegexTokenizer` (text path).  Python drives a state
  machine through integer states 0,1,2,3,9,10,11,12 (4-8 are never
  assigned); we represent exactly those reachable states as an inductive so
  the final-state check `2 <= state <= 8` collapses to states 2 and 3 and
  `9 <= state <= 12` to states 9-12.
-/

inductive TkMode where
  | m0 | m1 | m2 | m3 | m9 | m10 | m11 | m12
deriving DecidableEq, Repr

/-- Tokenizer state: `_state`, `_currentClass`, `_exponentValue`,
`_startExponent` of `RegexTokenizer`. -/
structure TkSt where
  mode : TkMode
  currentClass : List Char
  exponentValue : Nat
  startExponent : Option Nat
deriving DecidableEq, Repr

/-- Regex tokens (the `TOK_*` constants with their payloads; `exp` is
`ExponentToken(minCount, maxCount)`). -/
inductive RTok where
  | cls (k : CClass)
  | exp (lo : Nat) (hi : Option Nat)
  | lparen
  | rparen
  | union
deriving DecidableEq, Repr

/-- The tokenizer error taxonomy of regex.py (`InvalidClassError` is raised
by the host `re` module on bad class contents and is not modelled). -/
inductive TokErr where
  | tokenizeErr
  | backslashAtEnd
  | unterminatedClass
  | invalidExponent
deriving DecidableEq, Repr

/-- `int(char)` for a digit character. -/
def digitVal (c : Char) : Nat := c.toNat - 48

/-- One step of the tokenizer: the `_stateN` methods of `RegexTokenizer`,
dispatched on the current state.  Each step consumes one character and
yields the follow-up state and the tokens appended to the token list. -/
def tkStep (st : TkSt) (c : Char) : Except TokErr (TkSt × List RTok) :=
  match st.mode with
  | TkMode.m0 =>
    if c = '*' then Except.ok (st, [RTok.exp 0 none])
    else if c = '+' then Except.ok (st, [RTok.exp 1 none])
    else if c = '.' then Except.ok (st, [RTok.cls CClass.any])
    else if c = '(' then Except.ok (st, [RTok.lparen])
    else if c = ')' then Except.ok (st, [RTok.rparen])
    else if c = '|' then Except.ok (st, [RTok.union])
    else if c = '[' then Except.ok ({ st with mode := TkMode.m2, currentClass := [c] }, [])
    else if c = '\x7b' then Except.ok ({ st with mode := TkMode.m9 }, [])
    else if c = ']' ∨ c = '\x7d' then Except.error TokErr.tokenizeErr
    else if c = '\\' then Except.ok ({ st with mode := TkMode.m1 }, [])
    else Except.ok (st, [RTok.cls (CClass.lit c)])
  | TkMode.m1 =>
    if c = 'd' ∨ c = 's' ∨ c = 'w' ∨ c = 'D' ∨ c = 'S' ∨ c = 'W' then
      Except.ok ({ st with mode := TkMode.m0 }, [RTok.cls (CClass.rx ['\\', c])])
    else if c = 'n' then
      Except.ok ({ st with mode := TkMode.m0 }, [RTok.cls (CClass.lit '\n')])
    else if c = 't' then
      Except.ok ({ st with mode := TkMode.m0 }, [RTok.cls (CClass.lit '\t')])
    else Except.ok ({ st with mode := TkMode.m0 }, [RTok.cls (CClass.lit c)])
  | TkMode.m2 =>
    if c = '\\' then Except.ok ({ st with mode := TkMode.m3 }, [])
    else if c = ']' then
      Except.ok ({ st with mode := TkMode.m0, currentClass := [] },
        [RTok.cls (CClass.rx (st.currentClass ++ [c]))])
    else Except.ok ({ st with currentClass := st.currentClass ++ [c] }, [])
  | TkMode.m3 =>
    Except.ok ({ st with mode := TkMode.m2, currentClass := st.currentClass ++ ['\\', c] }, [])
  | TkMode.m9 =>
    if c.isDigit then
      Except.ok ({ st with mode := TkMode.m10, exponentValue := digitVal c }, [])
    else Except.error TokErr.invalidExponent
  | TkMode.m10 =>
    if c = '-' then
      Except.ok ({ st with mode := TkMode.m11, startExponent := some st.exponentValue }, [])
    else if c = '\x7d' then
      Except.ok ({ st with mode := TkMode.m0 },
        [RTok.exp st.exponentValue (some st.exponentValue)])
    else if c.isDigit then
      Except.ok ({ st with exponentValue := st.exponentValue * 10 + digitVal c }, [])
    else Except.error TokErr.invalidExponent
  | TkMode.m11 =>
    if c = '\x7d' then Except.error TokErr.invalidExponent
    else if c.isDigit then
      Except.ok ({ st with mode := TkMode.m12, exponentValue := digitVal c }, [])
    else Except.error TokErr.invalidExponent
  | TkMode.m12 =>
    if c = '\x7d' then
      if st.startExponent.getD 0 > st.exponentValue then
        Except.error TokErr.invalidExponent
      else
        Except.ok ({ st with mode := TkMode.m0 },
          [RTok.exp (st.startExponent.getD 0) (some st.exponentValue)])
    else if c.isDigit then
      Except.ok ({ st with exponentValue := st.exponentValue * 10 + digitVal c }, [])
    else Except.error TokErr.invalidExponent

/-- The end-of-input checks of `RegexTokenizer.tokens` (lines 324-329). -/
def tkFinish (st : TkSt) : Except TokErr (List RTok) :=
  match st.mode with
  | TkMode.m1 => Except.error TokErr.backslashAtEnd
  | TkMode.m2 => Except.error TokErr.unterminatedClass
  | TkMode.m3 => Except.error TokErr.unterminatedClass
  | TkMode.m9 => Except.error TokErr.invalidExponent
  | TkMode.m10 => Except.error TokErr.invalidExponent
  | TkMode.m11 => Except.error TokErr.invalidExponent
  | TkMode.m12 => Except.error TokErr.invalidExponent
  | TkMode.m0 => Except.ok []

/-- The character loop of `RegexTokenizer.tokens`, returning the tokens
emitted from state `st` on. -/
def runTok (st : TkSt) : List Char → Except TokErr (List RTok)
  | [] => tkFinish st
  | c :: cs =>
    match tkStep st c with
    | Except.error e => Except.error e
    | Except.ok p => Except.map (fun r => p.2 ++ r) (runTok p.1 cs)

/-- The tokenizer's initial state (`RegexTokenizer.__init__`). -/
def initTk : TkSt := ⟨TkMode.m0, [], 0, none⟩

/-- `RegexTokenizer(regex).tokens()`. -/
def tokenize (s : String) : Except TokErr (List RTok) := runTok initTk s.data

/-- Decimal value accumulated by states 10/12 over a digit string. -/
def pushDigits (v : Nat) (ds : List Char) : Nat :=
  ds.foldl (fun a c => a * 10 + digitVal c) v

/-- Decimal value of a digit string. -/
def numVal (ds : List Char) : Nat := pushDigits 0 ds

instance exceptDecEq {ε α : Type} [DecidableEq ε] [DecidableEq α] :
    DecidableEq (Except ε α) := fun x y =>
  match x, y with
  | Except.ok a, Except.ok b =>
    if h : a = b then isTrue (by rw [h]) else isFalse (by intro he; cases he; exact h rfl)
  | Except.error a, Except.error b =>
    if h : a = b then isTrue (by rw [h]) else isFalse (by intro he; cases he; exact h rfl)
  | Except.ok _, Except.error _ => isFalse (by intro he; cases he)
  | Except.error _, Except.ok _ => isFalse (by intro he; cases he)

lemma numVal_cons (d : Char) (ds : List Char) :
    numVal (d :: ds) = pushDigits (digitVal d) ds := by
  unfold numVal pushDigits
  simp

lemma runTok_cons_ok (st : TkSt) (c : Char) (cs : List Char) (st' : TkSt)
    (toks : List RTok) (h : tkStep st c = Except.ok (st', toks)) :
    runTok st (c :: cs) = Except.map (fun r => toks ++ r) (runTok st' cs) := by
  show (match tkStep st c with
    | Except.error e => Except.error e
    | Except.ok p => Except.map (fun r => p.2 ++ r) (runTok p.1 cs)) =
    Except.map (fun r => toks ++ r) (runTok st' cs)
  rw [h]

lemma runTok_cons_err (st : TkSt) (c : Char) (cs : List Char) (e : TokErr)
    (h : tkStep st c = Except.error e) :
    runTok st (c :: cs) = Except.error e := by
  show (match tkStep st c with
    | Except.error e => Except.error e
    | Except.ok p => Except.map (fun r => p.2 ++ r) (runTok p.1 cs)) =
    Except.error e
  rw [h]

lemma exmap_nil (x : Except TokErr (List RTok)) :
    Except.map (fun r => ([] : List RTok) ++ r) x = x := by
  cases x <;> rfl

lemma not_dash_of_digit {c : Char} (h : c.isDigit = true) : ¬ c = '-' :=
  fun he => by rw [he] at h; exact absurd h (by decide)

lemma not_rbrace_of_digit {c : Char} (h : c.isDigit = true) : ¬ c = '\x7d' :=
  fun he => by rw [he] at h; exact absurd h (by decide)

/-- In state 10 a run of digits accumulates the decimal value and stays in
state 10. -/
lemma runTok_digits10 (cc : List Char) (se : Option Nat) :
    ∀ (ds : List Char) (v : Nat) (rest : List Char),
      (∀ c ∈ ds, c.isDigit = true) →
      runTok ⟨TkMode.m10, cc, v, se⟩ (ds ++ rest) =
      runTok ⟨TkMode.m10, cc, pushDigits v ds, se⟩ rest := by
  intro ds
  induction ds with
  | nil => intro v rest _; rfl
  | cons d ds ih =>
    intro v rest hd
    have hdd : d.isDigit = true := hd d (List.mem_cons_self _ _)
    have hstep : tkStep ⟨TkMode.m10, cc, v, se⟩ d =
        Except.ok (⟨TkMode.m10, cc, v * 10 + digitVal d, se⟩, []) := by
      show (if d = '-' then _ else if d = '\x7d' then _ else if d.isDigit then _ else _) = _
      rw [if_neg (not_dash_of_digit hdd), if_neg (not_rbrace_of_digit hdd), if_pos hdd]
    rw [show (d :: ds) ++ rest = d :: (ds ++ rest) from rfl,
        runTok_cons_ok _ _ _ _ _ hstep, exmap_nil, ih _ rest
          (fun c hc => hd c (List.mem_cons_of_mem d hc))]
    rfl

/-- In state 12 a run of digits accumulates the decimal value and stays in
state 12. -/
lemma runTok_digits12 (cc : List Char) (se : Option Nat) :
    ∀ (ds : List Char) (v : Nat) (rest : List Char),
      (∀ c ∈ ds, c.isDigit = true) →
      runTok ⟨TkMode.m12, cc, v, se⟩ (ds ++ rest) =
      runTok ⟨TkMode.m12, cc, pushDigits v ds, se⟩ rest := by
  intro ds
  induction ds with
  | nil => intro v rest _; rfl
  | cons d ds ih =>
    intro v rest hd
    have hdd : d.isDigit = true := hd d (List.mem_cons_self _ _)
    have hstep : tkStep ⟨TkMode.m12, cc, v, se⟩ d =
        Except.ok (⟨TkMode.m12, cc, v * 10 + digitVal d, se⟩, []) := by
      show (if d = '\x7d' then _ else if d.isDigit then _ else _) = _
      rw [if_neg (not_rbrace_of_digit hdd), if_pos hdd]
    rw [show (d :: ds) ++ rest = d :: (ds ++ rest) from rfl,
        runTok_cons_ok _ _ _ _ _ hstep, exmap_nil, ih _ rest
          (fun c hc => hd c (List.mem_cons_of_mem d hc))]
    rfl

/-- Opening brace followed by a nonempty digit string lands the tokenizer in
state 10 with the string's decimal value accumulated. -/
lemma runTok_open_digits (ds : List Char) (hds : ∀ c ∈ ds, c.isDigit = true)
    (hne : ds ≠ []) (rest : List Char) :
    runTok initTk ('\x7b' :: (ds ++ rest)) =
    runTok ⟨TkMode.m10, [], numVal ds, none⟩ rest := by
  cases ds with
  | nil => exact absurd rfl hne
  | cons d ds =>
    have hdd : d.isDigit = true := hds d (List.mem_cons_self _ _)
    have hstep0 : tkStep initTk '\x7b' =
        Except.ok (⟨TkMode.m9, [], 0, none⟩, []) := by decide
    have hstep9 : tkStep ⟨TkMode.m9, [], 0, none⟩ d =
        Except.ok (⟨TkMode.m10, [], digitVal d, none⟩, []) := by
      show (if d.isDigit then _ else _) = _
      rw [if_pos hdd]
    rw [runTok_cons_ok _ _ _ _ _ hstep0, exmap_nil,
        show (d :: ds) ++ rest = d :: (ds ++ rest) from rfl,
        runTok_cons_ok _ _ _ _ _ hstep9, exmap_nil,
        runTok_digits10 _ _ ds (digitVal d) rest
          (fun c hc => hds c (List.mem_cons_of_mem d hc)), numVal_cons]

lemma tkStep_m10_dash (cc : List Char) (v : Nat) (se : Option Nat) :
    tkStep ⟨TkMode.m10, cc, v, se⟩ '-' =
    Except.ok (⟨TkMode.m11, cc, v, some v⟩, []) := rfl

lemma tkStep_m10_rbrace (cc : List Char) (v : Nat) (se : Option Nat) :
    tkStep ⟨TkMode.m10, cc, v, se⟩ '\x7d' =
    Except.ok (⟨TkMode.m0, cc, v, se⟩, [RTok.exp v (some v)]) := rfl

lemma tkStep_m10_err (cc : List Char) (v : Nat) (se : Option Nat) (c : Char)
    (hc : c.isDigit = false) (h1 : ¬ c = '-') (h2 : ¬ c = '\x7d') :
    tkStep ⟨TkMode.m10, cc, v, se⟩ c = Except.error TokErr.invalidExponent := by
  show (if c = '-' then _ else if c = '\x7d' then _
        else if c.isDigit then _ else _) = _
  rw [if_neg h1, if_neg h2, if_neg (by simp [hc])]

lemma tkStep_m11_rbrace (cc : List Char) (v : Nat) (se : Option Nat) :
    tkStep ⟨TkMode.m11, cc, v, se⟩ '\x7d' =
    Except.error TokErr.invalidExponent := rfl

lemma tkStep_m11_digit (cc : List Char) (v : Nat) (se : Option Nat) (c : Char)
    (hc : c.isDigit = true) :
    tkStep ⟨TkMode.m11, cc, v, se⟩ c =
    Except.ok (⟨TkMode.m12, cc, digitVal c, se⟩, []) := by
  show (if c = '\x7d' then _ else if c.isDigit then _ else _) = _
  rw [if_neg (not_rbrace_of_digit hc), if_pos hc]

lemma tkStep_m12_rbrace_ok (cc : List Char) (v s : Nat) (h : ¬ s > v) :
    tkStep ⟨TkMode.m12, cc, v, some s⟩ '\x7d' =
    Except.ok (⟨TkMode.m0, cc, v, some s⟩, [RTok.exp s (some v)]) := by
  show (if s > v then _ else _) = _
  rw [if_neg h]
  rfl

lemma tkStep_m12_rbrace_err (cc : List Char) (v s : Nat) (h : s > v) :
    tkStep ⟨TkMode.m12, cc, v, some s⟩ '\x7d' =
    Except.error TokErr.invalidExponent := by
  show (if s > v then _ else _) = _
  rw [if_pos h]

/-- Claim C2 as corrected: the exponent range separator accepted by the
tokenizer is `'-'`, not `','`.  For nonempty digit strings `ds`, `es`:
`'\x7bds\x7d'` tokenizes to the single token `EXPONENT(n, n)`;
`'\x7bds-es\x7d'` tokenizes to `EXPONENT(n, m)` when `n ≤ m` and raises
`InvalidExponentError` when `n > m`; a missing range end after the
separator and any non-digit, non-separator, non-closing character inside
the braces also raise `InvalidExponentError`. -/
theorem C2_exponent_tokenization (ds es : List Char)
    (hds : ∀ c ∈ ds, c.isDigit = true) (hes : ∀ c ∈ es, c.isDigit = true)
    (hdne : ds ≠ []) (hene : es ≠ []) :
    (tokenize (String.mk ('\x7b' :: (ds ++ ['\x7d']))) =
       Except.ok [RTok.exp (numVal ds) (some (numVal ds))]) ∧
    (numVal ds ≤ numVal es →
      tokenize (String.mk ('\x7b' :: (ds ++ ('-' :: (es ++ ['\x7d']))))) =
        Except.ok [RTok.exp (numVal ds) (some (numVal es))]) ∧
    (numVal es < numVal ds →
      tokenize (String.mk ('\x7b' :: (ds ++ ('-' :: (es ++ ['\x7d']))))) =
        Except.error TokErr.invalidExponent) ∧
    (tokenize (String.mk ('\x7b' :: (ds ++ ['-', '\x7d']))) =
       Except.error TokErr.invalidExponent) ∧
    (∀ c rest, c.isDigit = false → ¬ c = '-' → ¬ c = '\x7d' →
      tokenize (String.mk ('\x7b' :: (ds ++ (c :: rest)))) =
        Except.error TokErr.invalidExponent) := by
  have base : ∀ rest, tokenize (String.mk ('\x7b' :: (ds ++ rest))) =
      runTok ⟨TkMode.m10, [], numVal ds, none⟩ rest :=
    fun rest => runTok_open_digits ds hds hdne rest
  refine ⟨?_, ?_, ?_, ?_, ?_⟩
  · rw [base ['\x7d'],
        runTok_cons_ok _ _ _ _ _ (tkStep_m10_rbrace [] (numVal ds) none)]
    rfl
  · intro hle
    rw [base ('-' :: (es ++ ['\x7d'])),
        runTok_cons_ok _ _ _ _ _ (tkStep_m10_dash [] (numVal ds) none), exmap_nil]
    cases es with
    | nil => exact absurd rfl hene
    | cons e es' =>
      have hed : e.isDigit = true := hes e (List.mem_cons_self _ _)
      rw [show (e :: es') ++ ['\x7d'] = e :: (es' ++ ['\x7d']) from rfl,
          runTok_cons_ok _ _ _ _ _ (tkStep_m11_digit [] (numVal ds) (some (numVal ds)) e hed),
          exmap_nil,
          runTok_digits12 [] (some (numVal ds)) es' (digitVal e) ['\x7d']
            (fun c hc => hes c (List.mem_cons_of_mem e hc)),
          ← numVal_cons,
          runTok_cons_ok _ _ _ _ _
            (tkStep_m12_rbrace_ok [] (numVal (e :: es')) (numVal ds) (not_lt.2 hle))]
      rfl
  · intro hlt
    rw [base ('-' :: (es ++ ['\x7d'])),
        runTok_cons_ok _ _ _ _ _ (tkStep_m10_dash [] (numVal ds) none), exmap_nil]
    cases es with
    | nil => exact absurd rfl hene
    | cons e es' =>
      have hed : e.isDigit = true := hes e (List.mem_cons_self _ _)
      rw [show (e :: es') ++ ['\x7d'] = e :: (es' ++ ['\x7d']) from rfl,
          runTok_cons_ok _ _ _ _ _ (tkStep_m11_digit [] (numVal ds) (some (numVal ds)) e hed),
          exmap_nil,
          runTok_digits12 [] (some (numVal ds)) es' (digitVal e) ['\x7d']
            (fun c hc => hes c (List.mem_cons_of_mem e hc)),
          ← numVal_cons,
          runTok_cons_err _ _ _ _
            (tkStep_m12_rbrace_err [] (numVal (e :: es')) (numVal ds) hlt)]
  · rw [base ['-', '\x7d'],
        runTok_cons_ok _ _ _ _ _ (tkStep_m10_dash [] (numVal ds) none), exmap_nil,
        runTok_cons_err _ _ _ _ (tkStep_m11_rbrace [] (numVal ds) (some (numVal ds)))]
  · intro c rest hc h1 h2
    rw [base (c :: rest),
        runTok_cons_err _ _ _ _ (tkStep_m10_err [] (numVal ds) none c hc h1 h2)]

/-- Counterexample to C2 as stated: the source `'\x7b2,3\x7d'` (i.e. a
comma-separated exponent) raises `InvalidExponentError` instead of yielding
`EXPONENT(2, 3)` — the comma is treated as an invalid character. -/
theorem C2_comma_counterexample :
    tokenize "\x7b2,3\x7d" = Except.error TokErr.invalidExponent ∧
    tokenize "\x7b2,3\x7d" ≠ Except.ok [RTok.exp 2 (some 3)] := by
  decide

/-- Witness for C2 at the concrete digit strings `2` and `3`. -/
theorem C2_exponent_tokenization_witness :
    (∀ c ∈ ['2'], c.isDigit = true) ∧ (∀ c ∈ ['3'], c.isDigit = true) ∧
    tokenize (String.mk ('\x7b' :: (['2'] ++ ['\x7d']))) =
      Except.ok [RTok.exp (numVal ['2']) (some (numVal ['2']))] :=
  ⟨by decide, by decide,
   (C2_exponent_tokenization ['2'] ['3'] (by decide) (by decide)
     (by decide) (by decide)).1⟩

/-
  Embedding of regex.py `RegexParser` (lines 459-533).  The recursive
  descent is fuelled; the fuel passed by `parseTokens` is far larger than
  the recursion depth the grammar can reach on the given token list, so the
  fuel-exhaustion branch is never taken on the inputs considered here.  The
  state counter is threaded through every NFA construction, including the
  speculative `_parse_E3`/`_parse_R2` look-ahead parse that `_parse_R2`
  performs inside its `try` block (Python allocates states there too and
  discards them; only freshness matters).
-/

inductive PErr where
  | parseErr
deriving DecidableEq, Repr

/-- Defunctionalized call frames of the mutually recursive `_parse_*`
methods, so that the fuelled recursion is structural on the fuel and
computes by reduction. -/
inductive PCall where
  | e1 (toks : List RTok) (pos c : Nat)
  | r1 (left : RegExpr) (toks : List RTok) (pos c : Nat)
  | e2 (toks : List RTok) (pos c : Nat)
  | r2 (left : RegExpr) (toks : List RTok) (pos c : Nat)
  | e3 (toks : List RTok) (pos c : Nat)
  | r3 (left : RegExpr) (toks : List RTok) (pos c : Nat)
  | atom (toks : List RTok) (pos c : Nat)

/-- The seven `_parse_*` methods of `RegexParser`, dispatched on the call
frame; each Python-level call costs one unit of fuel. -/
def parRun : Nat → PCall → Except PErr (RegExpr × Nat × Nat)
  | 0, _ => Except.error PErr.parseErr
  | f + 1, PCall.e1 toks pos c =>
    (match parRun f (PCall.e2 toks pos c) with
     | Except.error e => Except.error e
     | Except.ok (expr, pos', c') => parRun f (PCall.r1 expr toks pos' c'))
  | f + 1, PCall.r1 left toks pos c =>
    (match toks.get? pos with
     | some RTok.union =>
       (match parRun f (PCall.e2 toks (pos + 1) c) with
        | Except.error e => Except.error e
        | Except.ok (expr, pos', c') =>
          parRun f (PCall.r1 (RegExpr.union [left, expr] c').1 toks pos'
            (RegExpr.union [left, expr] c').2))
     | _ => Except.ok (left, pos, c))
  | f + 1, PCall.e2 toks pos c =>
    (match parRun f (PCall.e3 toks pos c) with
     | Except.error e => Except.error e
     | Except.ok (expr, pos', c') => parRun f (PCall.r2 expr toks pos' c'))
  | f + 1, PCall.r2 left toks pos c =>
    (match parRun f (PCall.e3 toks pos c) with
     | Except.error _ => Except.ok (left, pos, c)
     | Except.ok (tmpE, tmpPos, c1) =>
       match parRun f (PCall.r2 tmpE toks tmpPos c1) with
       | Except.error _ => Except.ok (left, pos, c)
       | Except.ok (_, _, c2) =>
         match parRun f (PCall.e3 toks pos c2) with
         | Except.error _ => Except.ok (left, pos, c2)
         | Except.ok (expr, pos', c3) =>
           parRun f (PCall.r2 (RegExpr.concat [left, expr] c3).1 toks pos'
             (RegExpr.concat [left, expr] c3).2))
  | f + 1, PCall.e3 toks pos c =>
    (match parRun f (PCall.atom toks pos c) with
     | Except.error e => Except.error e
     | Except.ok (expr, pos', c') => parRun f (PCall.r3 expr toks pos' c'))
  | f + 1, PCall.r3 left toks pos c =>
    (match toks.get? pos with
     | some (RTok.exp lo hi) =>
       parRun f (PCall.r3 (RegExpr.exponent left lo hi c).1 toks (pos + 1)
         (RegExpr.exponent left lo hi c).2)
     | _ => Except.ok (left, pos, c))
  | f + 1, PCall.atom toks pos c =>
    (match toks.get? pos with
     | none => Except.error PErr.parseErr
     | some RTok.lparen =>
       (match parRun f (PCall.e1 toks (pos + 1) c) with
        | Except.error e => Except.error e
        | Except.ok (expr, pos', c') =>
          match toks.get? pos' with
          | some RTok.rparen => Except.ok (expr, pos' + 1, c')
          | _ => Except.error PErr.parseErr)
     | some (RTok.cls k) =>
       Except.ok ((RegExpr.fromClass k c).1, pos + 1, (RegExpr.fromClass k c).2)
     | some _ => Except.error PErr.parseErr)

/-- regex.py `RegexParser.parse`: parse an `E1` from position 0 and require
that every token was consumed. -/
def parseTokens (toks : List RTok) (c : Nat) : Except PErr RegExpr :=
  match parRun (8 * (toks.length + 2)) (PCall.e1 toks 0 c) with
  | Except.error e => Except.error e
  | Except.ok (expr, pos, _) =>
    if toks.length = pos then Except.ok expr else Except.error PErr.parseErr

/-- Errors surfacing from `buildRegex`: a tokenizer error propagates as-is,
a parse error as `RegexParseError`. -/
inductive BErr where
  | tokErr (e : TokErr)
  | parseErr
deriving DecidableEq, Repr

/-- regex.py `buildRegex` (lines 536-540). -/
def buildRegex (s : String) : Except BErr RegExpr :=
  match tokenize s with
  | Except.error e => Except.error (BErr.tokErr e)
  | Except.ok toks =>
    match parseTokens toks 0 with
    | Except.error _ => Except.error BErr.parseErr
    | Except.ok r => Except.ok r

/-- Counterexample to C3 as stated: building a regular expression from the
source `'a\x7b2,3\x7d'` does not succeed — the tokenizer raises
`InvalidExponentError` on the comma, because the range separator this
engine accepts is `'-'`. -/
theorem C3_comma_build_fails :
    buildRegex "a\x7b2,3\x7d" = Except.error (BErr.tokErr TokErr.invalidExponent) := by
  decide

/-- Claim C3 as corrected: with the separator the code actually implements,
the regular expression built from `'a\x7b2-3\x7d'` matches exactly `"aa"`
and `"aaa"`: building succeeds, match returns true on `"aa"` and `"aaa"`,
and false on `"a"` and `"aaaa"`. -/
theorem C3_regex_two_three :
    ∃ r, buildRegex "a\x7b2-3\x7d" = Except.ok r ∧
      RegExpr.matchString noHost r "aa" = true ∧
      RegExpr.matchString noHost r "aaa" = true ∧
      RegExpr.matchString noHost r "a" = false ∧
      RegExpr.matchString noHost r "aaaa" = false := by
  refine ⟨(RegExpr.exponent reA 2 (some 3) 2).1, ?_, ?_, ?_, ?_, ?_⟩ <;> decide

/-
  Embedding of lexer.py `ProgressiveLexer` (text path).

  Characters fed to the lexer are either real characters or the `EOF`
  singleton.  Callbacks are identified by numbers; their behaviour (mutating
  the token and optionally installing a consumer) and the behaviour of
  consumers (absorb the character, or emit a `(type, value)` pair) are
  abstract parameters of the configuration, mirroring the user-supplied
  callables.  Token emissions (`newToken`) and callback invocations are
  recorded as an event trace.  Raising `LexerError` is modelled by the
  `Option LErr` component of the result; the lexer object's state after the
  exception is the first component.  The `restartLexer` rebuild of the rule
  NFAs is deterministic, so restarting yields the per-rule start sets of the
  rule templates.
-/

inductive LChar where
  | chr (c : Char)
  | eof
deriving DecidableEq, Repr

/-- lexer.py `_MutableToken`: `type` is a token type name or `None`. -/
structure MTok where
  type : Option String
  value : String
deriving DecidableEq, Repr

/-- One registered token rule from `_allTokens()[1]`: the compiled regex
template, the callback and the default type (`None` when the registration
declared an explicit types set). -/
structure Rule where
  rx : RegExpr
  cb : Nat
  defaultType : Option String
deriving DecidableEq, Repr

/-- One entry of `__currentState`: `(regex, callback, defaultType, pos)`
with the regex's mutable current set and the `pos[0]` match counter. -/
structure SimRule where
  rule : Rule
  cur : Finset Nat
  best : Nat
deriving DecidableEq

/-- Result of a consumer's `feed`: absorb the character (with the follow-up
consumer state) or return a `(type, value)` pair. -/
inductive ConsRes where
  | cont (next : Nat)
  | tok (t : Option String) (v : String)

/-- Lexer configuration: the registered rules and the abstract behaviour of
callbacks (`cb id tok = (mutated token, consumer to install)`), consumers,
the host regex primitive and the `ignore` predicate. -/
structure LexCfg where
  rules : List Rule
  host : List Char → Char → Bool
  cb : Nat → MTok → MTok × Option Nat
  consumerFeed : Nat → LChar → ConsRes
  ignore : Char → Bool

/-- lexer.py `LexerBase.ignore`: spaces and tabs. -/
def defaultIgnore (c : Char) : Bool := c = ' ' ∨ c = '\t'

/-- Mutable lexer state: `__pos` (column, line), `__consumer`,
`__currentState`, `__currentMatch`, `__matches`, `__maxPos`, `__state`. -/
structure LexState where
  pos : Nat × Nat
  consumer : Option Nat
  currentState : List SimRule
  currentMatch : List (Char × (Nat × Nat))
  matchesL : List (Nat × Nat)
  maxPos : Nat
  lexst : Nat
deriving DecidableEq

/-- Observable events: emitted tokens (`newToken`), the EOF token, and
callback invocations with the mutable token's initial contents. -/
inductive Ev where
  | tok (t : String) (v : String)
  | eofTok
  | invoke (cb : Nat) (t : Option String) (v : String)
deriving DecidableEq, Repr

/-- `LexerError(char, colno, lineno)`. -/
structure LErr where
  char : Char
  colno : Nat
  lineno : Nat
deriving DecidableEq, Repr

/-- The state built by `ProgressiveLexer.restartLexer(resetPos=True)`:
fresh NFAs in their start sets, empty buffers, no consumer, position
reset to column 0, line 1. -/
def restartFull (cfg : LexCfg) : LexState :=
  { pos := (0, 1), consumer := none,
    currentState := cfg.rules.map (fun r => ⟨r, r.rx.startSet, 0⟩),
    currentMatch := [], matchesL := [], maxPos := 0, lexst := 0 }

/-- `restartLexer(resetPos=False)`: same, but the position survives. -/
def restartKeepPos (cfg : LexCfg) (s : LexState) : LexState :=
  { restartFull cfg with pos := s.pos }

/-- The position update at the top of `feed`: `advanceLine()` on a newline
(column reset to 0), `advanceColumn()` otherwise; the EOF sentinel is not
the newline character, so it advances the column. -/
def advancePos (p : Nat × Nat) (ch : LChar) : Nat × Nat :=
  if ch = LChar.chr '\n' then (0, p.2 + 1) else (p.1 + 1, p.2)

/-- The per-rule NFA loop of `feed` (lexer.py 327-337): feed the character
to each live rule in order; survivors keep their updated current set and
`best` counter, rules whose NFA died contribute their recorded `best` (when
non-zero) to the matches and to the running maximum. -/
def simsStep (cfg : LexCfg) (ch : Char) (buflen : Nat) :
    List SimRule → List SimRule × List (Nat × Nat) × Nat
  | [] => ([], [], 0)
  | sim :: rest =>
    let q := simsStep cfg ch buflen rest
    match sim.rule.rx.feedChar cfg.host sim.cur ch with
    | some p =>
      (⟨sim.rule, p.2, if p.1 then buflen + 1 else sim.best⟩ :: q.1, q.2.1, q.2.2)
    | none =>
      (q.1,
       (if sim.best ≠ 0 then [(sim.best, sim.rule.cb)] else []) ++ q.2.1,
       max (if sim.best ≠ 0 then sim.best else 0) q.2.2)

/-- `max(pos[0] for ...)` over the live rules (0 on an empty list, which the
`state == 1` invariant keeps unreachable where Python would raise). -/
def maxBests (l : List SimRule) : Nat := l.foldl (fun m sim => max m sim.best) 0

/-- The callback-selection loop of `__finalizeMatch` (lexer.py 370-377):
scan the registered rules in registration order; for the first whose
callback is among the matches, invoke the callback on a mutable token
`(defaultType, match)`; if the callback nulled the type or installed a
consumer, stop without emitting, otherwise emit the token; in every case
stop after the first hit. -/
def finalizeLoop (cfg : LexCfg) (matchCbs : List Nat) (value : String) :
    List Rule → List Ev × Option Nat
  | [] => ([], none)
  | r :: rest =>
    if r.cb ∈ matchCbs then
      match cfg.cb r.cb ⟨r.defaultType, value⟩ with
      | (tok', cons) =>
        match tok'.type, cons with
        | none, cons => ([Ev.invoke r.cb r.defaultType value], cons)
        | some _, some cs => ([Ev.invoke r.cb r.defaultType value], some cs)
        | some ty, none =>
          ([Ev.invoke r.cb r.defaultType value, Ev.tok ty tok'.value], none)
    else finalizeLoop cfg matchCbs value rest

/-- Lines 365-369 and the loop of `__finalizeMatch`: compute the match
value and the remainder, restart without resetting the position, run the
selection loop (which may install a consumer).  The remainder still has to
be re-fed. -/
def finalizeCore (cfg : LexCfg) (s : LexState) :
    LexState × List Ev × List (Char × (Nat × Nat)) :=
  let matchCbs := s.matchesL.map (·.2)
  let value := String.mk ((s.currentMatch.take s.maxPos).map (·.1))
  let remain := s.currentMatch.drop s.maxPos
  let fl := finalizeLoop cfg matchCbs value cfg.rules
  ({ restartKeepPos cfg s with consumer := fl.2 }, fl.1, remain)

/-- Call frames for `feed` / `__finalizeMatch` / the re-feed loop, so the
fuelled recursion is structural and computes by reduction. -/
inductive LCall where
  | feed (s : LexState) (ch : LChar) (cp : Option (Nat × Nat))
  | fin (s : LexState)
  | refeed (s : LexState) (l : List (Char × (Nat × Nat)))

/-- lexer.py `ProgressiveLexer.feed` (lines 292-362), `__finalizeMatch`
(lines 364-379) and the trailing re-feed loop, as one fuelled recursion.
The result is the lexer state after the call, the trace of events, and the
`LexerError` if one propagated. -/
def lexRun (cfg : LexCfg) : Nat → LCall → LexState × List Ev × Option LErr
  | 0, LCall.feed s _ _ => (s, [], none)
  | 0, LCall.fin s => (s, [], none)
  | 0, LCall.refeed s _ => (s, [], none)
  | f + 1, LCall.feed s ch cp =>
    (match { s with pos := advancePos s.pos ch }, ch with
     | s', ch =>
       match s'.consumer with
       | some cs =>
         (match cfg.consumerFeed cs ch with
          | ConsRes.cont cs' => ({ s' with consumer := some cs' }, [], none)
          | ConsRes.tok (some ty) v => ({ s' with consumer := none }, [Ev.tok ty v], none)
          | ConsRes.tok none _ => ({ s' with consumer := none }, [], none))
       | none =>
         match ch with
         | LChar.eof =>
           if s'.lexst = 0 then (restartFull cfg, [Ev.eofTok], none)
           else
             let mp := max s'.maxPos (maxBests s'.currentState)
             if mp = 0 ∧ s'.currentMatch ≠ [] then
               match s'.currentMatch with
               | (c0, p0) :: _ => (restartFull cfg, [], some ⟨c0, p0.1, p0.2⟩)
               | [] => (restartFull cfg, [], none)
             else
               let s2 := { s' with
                             maxPos := mp,
                             matchesL := (s'.matchesL ++ s'.currentState.filterMap
                                 (fun sim =>
                                   if sim.best = mp then some (sim.best, sim.rule.cb)
                                   else none)).filter (fun pc => pc.1 = mp) }
               let r := lexRun cfg f (LCall.fin s2)
               if r.2.2.isSome then (r.1, r.2.1, r.2.2)
               else (restartFull cfg, r.2.1 ++ [Ev.eofTok], none)
         | LChar.chr c =>
           if s'.lexst = 0 ∧ cfg.ignore c then (s', [], none)
           else
             let buflen := s'.currentMatch.length
             let st := simsStep cfg c buflen s'.currentState
             let m1 := s'.matchesL ++ st.2.1
             let mp1 := max s'.maxPos st.2.2
             let allDead := st.1.all (fun sim => sim.rule.rx.isDeadEnd sim.cur)
             let m2 := if allDead then m1 ++ st.1.map (fun sim => (buflen + 1, sim.rule.cb)) else m1
             let mp2 := if allDead then (if st.1.isEmpty then mp1 else max mp1 (buflen + 1)) else mp1
             let ns2 := if allDead then [] else st.1
             let cm := s'.currentMatch ++ [(c, match cp with | some p => p | none => s'.pos)]
             let s2 : LexState := { s' with
                                      lexst := 1,
                                      currentState := ns2,
                                      currentMatch := cm,
                                      matchesL := m2.filter (fun pc => pc.1 = mp2),
                                      maxPos := mp2 }
             if ns2.isEmpty then
               if mp2 = 0 then (restartFull cfg, [], some ⟨c, s'.pos.1, s'.pos.2⟩)
               else lexRun cfg f (LCall.fin s2)
             else (s2, [], none))
  | f + 1, LCall.fin s =>
    (let q := finalizeCore cfg s
     let r := lexRun cfg f (LCall.refeed q.1 q.2.2)
     (r.1, q.2.1 ++ r.2.1, r.2.2))
  | f + 1, LCall.refeed s l =>
    (match l with
     | [] => (s, [], none)
     | (c, p) :: rest =>
       let r1 := lexRun cfg f (LCall.feed s (LChar.chr c) (some p))
       if r1.2.2.isSome then r1
       else
         let r2 := lexRun cfg f (LCall.refeed r1.1 rest)
         (r2.1, r1.2.1 ++ r2.2.1, r2.2.2))

/-- `ProgressiveLexer.feed(char, charPos)`. -/
def lexFeed (cfg : LexCfg) (fuel : Nat) (s : LexState) (ch : LChar)
    (cp : Option (Nat × Nat)) : LexState × List Ev × Option LErr :=
  lexRun cfg fuel (LCall.feed s ch cp)

/-- Master lemma for C4: whenever a `LexerError` propagates out of the
lexer machinery — directly or from the re-feed loop inside a finalization —
the lexer state left behind is exactly the fully restarted one (the
`except LexerError: self.restartLexer(); raise` handler runs
`restartLexer` with its default `resetPos=True`). -/
lemma lexRun_err_restart (cfg : LexCfg) :
    ∀ (f : Nat) (k : LCall) (s' : LexState) (evs : List Ev) (e : LErr),
      lexRun cfg f k = (s', evs, some e) → s' = restartFull cfg := by
  intro f
  induction f with
  | zero => intro k s' evs e h; cases k <;> simp [lexRun] at h
  | succ f ih =>
    intro k s' evs e h
    cases k with
    | feed s ch cp =>
      simp only [lexRun] at h
      repeat' split at h
      all_goals try exact ih _ _ _ _ h
      all_goals try simp at h
      all_goals try exact h.1.symm
    | fin s =>
      simp only [lexRun] at h
      simp only [Prod.mk.injEq] at h
      obtain ⟨h1, -, h3⟩ := h
      rw [← h1]
      exact ih _ _ _ _ (by rw [← h3])
    | refeed s l =>
      simp only [lexRun] at h
      split at h
      · simp at h
      · split at h
        · exact ih _ _ _ _ h
        · simp only [Prod.mk.injEq] at h
          obtain ⟨h1, -, h3⟩ := h
          rw [← h1]
          exact ih _ _ _ _ (by rw [← h3])

/-- Claim C4 as corrected: whenever `feed` raises `LexerError`, the state
observable afterwards is the fully restarted state: all rule NFAs restarted
to their start sets, match buffer and match set empty, no consumer, and the
position counter reset to column 0, line 1 (`restartLexer()` in the
`except LexerError` handler uses its default `resetPos=True`; the position
at raise time is carried by the error itself, not by the lexer). -/
theorem C4_lexer_error_full_restart (cfg : LexCfg) (fuel : Nat) (s : LexState)
    (ch : LChar) (cp : Option (Nat × Nat)) (s' : LexState) (evs : List Ev)
    (e : LErr) (h : lexFeed cfg fuel s ch cp = (s', evs, some e)) :
    s'.currentState = cfg.rules.map (fun r => ⟨r, r.rx.startSet, 0⟩) ∧
    s'.currentMatch = [] ∧ s'.matchesL = [] ∧ s'.maxPos = 0 ∧
    s'.lexst = 0 ∧ s'.consumer = none ∧ s'.pos = (0, 1) := by
  have := lexRun_err_restart cfg fuel _ s' evs e h
  rw [this]
  exact ⟨rfl, rfl, rfl, rfl, rfl, rfl, rfl⟩

/-- A one-rule lexer (rule `A` = regex `a`, callback 0) with trivial
callback and consumer behaviour. -/
def cfgW : LexCfg :=
  ⟨[⟨reA, 0, some "A"⟩], noHost, fun _ t => (t, none),
   fun n _ => ConsRes.cont n, defaultIgnore⟩

/-- Counterexample to C4 as stated: feeding `'b'` to the one-rule lexer
raises `LexerError` at column 1, line 1, but afterwards the lexer's
position counter reads `(0, 1)` — the restart reset it — not the `(1, 1)`
it had when the error was raised. -/
theorem C4_position_reset_counterexample :
    lexFeed cfgW 2 (restartFull cfgW) (LChar.chr 'b') none =
      (restartFull cfgW, [], some ⟨'b', 1, 1⟩) ∧
    (restartFull cfgW).pos = (0, 1) ∧
    ¬ ((0, 1) : Nat × Nat) = (1, 1) := by
  decide

/-- Witness for C4 at the concrete erroring input. -/
theorem C4_lexer_error_full_restart_witness :
    (restartFull cfgW).currentState = cfgW.rules.map (fun r => ⟨r, r.rx.startSet, 0⟩) ∧
    (restartFull cfgW).currentMatch = [] ∧ (restartFull cfgW).matchesL = [] ∧
    (restartFull cfgW).maxPos = 0 ∧ (restartFull cfgW).lexst = 0 ∧
    (restartFull cfgW).consumer = none ∧ (restartFull cfgW).pos = (0, 1) :=
  C4_lexer_error_full_restart cfgW 2 (restartFull cfgW) (LChar.chr 'b') none
    (restartFull cfgW) [] ⟨'b', 1, 1⟩ (by decide)

/-- Recognizer for callback-invocation events. -/
def evIsInvoke : Ev → Bool
  | Ev.invoke _ _ _ => true
  | _ => false

lemma finalizeLoop_invokes (cfg : LexCfg) (matchCbs : List Nat) (value : String) :
    ∀ (rules : List Rule) (r₀ : Rule),
      rules.find? (fun r => decide (r.cb ∈ matchCbs)) = some r₀ →
      (finalizeLoop cfg matchCbs value rules).1.filter evIsInvoke =
        [Ev.invoke r₀.cb r₀.defaultType value] := by
  intro rules
  induction rules with
  | nil => intro r₀ h; cases h
  | cons r rest ih =>
    intro r₀ h
    by_cases hmem : r.cb ∈ matchCbs
    · rw [List.find?_cons_of_pos _ (by simpa using hmem)] at h
      cases h
      show ((if r.cb ∈ matchCbs then
          match cfg.cb r.cb ⟨r.defaultType, value⟩ with
          | (tok', cons) =>
            match tok'.type, cons with
            | none, cons => ([Ev.invoke r.cb r.defaultType value], cons)
            | some _, some cs => ([Ev.invoke r.cb r.defaultType value], some cs)
            | some ty, none =>
              ([Ev.invoke r.cb r.defaultType value, Ev.tok ty tok'.value], none)
        else finalizeLoop cfg matchCbs value rest)).1.filter evIsInvoke = _
      rw [if_pos hmem]
      rcases hcb : cfg.cb r.cb ⟨r.defaultType, value⟩ with ⟨tok', cons⟩
      rcases htype : tok'.type with _ | ty <;> rcases hcons : cons with _ | cs <;>
        simp [hcb, htype, hcons, evIsInvoke]
    · rw [List.find?_cons_of_neg _ (by simpa using hmem)] at h
      show ((if r.cb ∈ matchCbs then
          match cfg.cb r.cb ⟨r.defaultType, value⟩ with
          | (tok', cons) =>
            match tok'.type, cons with
            | none, cons => ([Ev.invoke r.cb r.defaultType value], cons)
            | some _, some cs => ([Ev.invoke r.cb r.defaultType value], some cs)
            | some ty, none =>
              ([Ev.invoke r.cb r.defaultType value, Ev.tok ty tok'.value], none)
        else finalizeLoop cfg matchCbs value rest)).1.filter evIsInvoke = _
      rw [if_neg hmem]
      exact ih r₀ h

/-- Claim C5: when finalization has a non-empty set of rules whose NFAs
matched at the maximal length, exactly one callback is invoked — that of
the earliest-registered rule whose callback is in the match set
(`find?` over the registration order) — with a mutable token carrying that
rule's default type and the matched value (the first `maxPos` buffered
characters); no other rule's callback is invoked during this finalization
(the re-fed remainder is a separate, later feed). -/
theorem C5_earliest_registered_callback (cfg : LexCfg) (s : LexState) (r₀ : Rule)
    (h : cfg.rules.find? (fun r => decide (r.cb ∈ s.matchesL.map (·.2))) = some r₀) :
    ((finalizeCore cfg s).2.1).filter evIsInvoke =
      [Ev.invoke r₀.cb r₀.defaultType
        (String.mk ((s.currentMatch.take s.maxPos).map (·.1)))] := by
  exact finalizeLoop_invokes cfg _ _ cfg.rules r₀ h

/-- A two-rule lexer whose rules both match a single `'a'`. -/
def cfgAB : LexCfg :=
  ⟨[⟨reA, 0, some "A"⟩, ⟨(RegExpr.fromClass (CClass.lit 'a') 0).1, 1, some "B"⟩],
   noHost, fun _ t => (t, none), fun n _ => ConsRes.cont n, defaultIgnore⟩

/-- A lexer state in which both rules of `cfgAB` matched at the maximal
length 1. -/
def stateAB : LexState :=
  { pos := (1, 1), consumer := none, currentState := [],
    currentMatch := [('a', (1, 1))], matchesL := [(1, 0), (1, 1)],
    maxPos := 1, lexst := 1 }

/-- Witness for C5: with two rules tied at the same maximal match length,
only the earlier-registered rule's callback (id 0, default type `A`) is
invoked, on the matched value `"a"`. -/
theorem C5_earliest_registered_callback_witness :
    cfgAB.rules.find? (fun r => decide (r.cb ∈ stateAB.matchesL.map (·.2))) =
      some ⟨reA, 0, some "A"⟩ ∧
    ((finalizeCore cfgAB stateAB).2.1).filter evIsInvoke =
      [Ev.invoke (⟨reA, 0, some "A"⟩ : Rule).cb (⟨reA, 0, some "A"⟩ : Rule).defaultType
        (String.mk ((stateAB.currentMatch.take stateAB.maxPos).map (·.1)))] :=
  ⟨by decide,
   C5_earliest_registered_callback cfgAB stateAB ⟨reA, 0, some "A"⟩ (by decide)⟩

/-- Claim C9: every `feed(ch, pos)` call advances the position counter
before any other processing — line incremented and column reset to 0 on a
newline, column incremented by one for any other character.  Observably:
when a consumer is installed the post-call position is exactly the advanced
one (for any fed character, the EOF sentinel included), likewise when the
character is ignored between tokens; and the advance function itself treats
the EOF sentinel as a non-newline, incrementing the column. -/
theorem C9_position_advanced_first (cfg : LexCfg) :
    (∀ (f : Nat) (s : LexState) (ch : LChar) (cp : Option (Nat × Nat)) (cs : Nat),
      s.consumer = some cs →
      (lexFeed cfg (f + 1) s ch cp).1.pos = advancePos s.pos ch) ∧
    (∀ (f : Nat) (s : LexState) (c : Char) (cp : Option (Nat × Nat)),
      s.consumer = none → s.lexst = 0 → cfg.ignore c = true →
      (lexFeed cfg (f + 1) s (LChar.chr c) cp).1.pos = advancePos s.pos (LChar.chr c)) ∧
    (∀ p : Nat × Nat, advancePos p LChar.eof = (p.1 + 1, p.2)) ∧
    (∀ p : Nat × Nat, advancePos p (LChar.chr '\n') = (0, p.2 + 1)) ∧
    (∀ (p : Nat × Nat) (c : Char), ¬ c = '\n' →
      advancePos p (LChar.chr c) = (p.1 + 1, p.2)) := by
  refine ⟨?_, ?_, fun p => rfl, fun p => rfl, ?_⟩
  · intro f s ch cp cs h
    obtain ⟨pos, cons, cst, cm, ml, mp, st⟩ := s
    have h' : cons = some cs := h
    subst h'
    rcases hr : cfg.consumerFeed cs ch with cs' | ⟨t, v⟩
    · simp [lexFeed, lexRun, hr]
    · cases t <;> simp [lexFeed, lexRun, hr]
  · intro f s c cp h1 h2 h3
    obtain ⟨pos, cons, cst, cm, ml, mp, st⟩ := s
    have h1' : cons = none := h1
    have h2' : st = 0 := h2
    subst h1'
    subst h2'
    simp [lexFeed, lexRun, h3]
  · intro p c h
    show (if LChar.chr c = LChar.chr '\n' then _ else _) = _
    rw [if_neg (by simpa using h)]

/-- Witness for C9: a consumer-installed state and an ignored space both
leave the advanced position, discharged at concrete inputs. -/
theorem C9_position_advanced_first_witness :
    ({ restartFull cfgW with consumer := some 7 } : LexState).consumer = some 7 ∧
    (lexFeed cfgW 3 { restartFull cfgW with consumer := some 7 } LChar.eof none).1.pos =
      advancePos (restartFull cfgW).pos LChar.eof ∧
    cfgW.ignore ' ' = true ∧
    (lexFeed cfgW 3 (restartFull cfgW) (LChar.chr ' ') none).1.pos =
      advancePos (restartFull cfgW).pos (LChar.chr ' ') :=
  ⟨rfl,
   (C9_position_advanced_first cfgW).1 2 _ LChar.eof none 7 rfl,
   by decide,
   (C9_position_advanced_first cfgW).2.1 2 (restartFull cfgW) ' ' none rfl rfl (by decide)⟩

/-
  Embedding of grammar.py `Grammar.prepare` (FIRST computation).

  Grammar symbols are names (strings) plus the EOF sentinel; FIRST-set
  members are symbols or ε.  The FIRST table is a total function defaulting
  to ∅, matching `allFirsts.get(symbol, set())`.  `nonterminals()` is a
  Python set; we enumerate it in a fixed deduplicated order (production
  names first, then right-hand-side symbols that are not tokens) — the
  fix point reached does not depend on that order.  Python computes the
  next table and compares it with a deep copy of the previous one,
  returning the (equal) new table; we check stability before stepping and
  return the unstepped table, which is pointwise the same map.
-/

inductive GSym where
  | s (n : String)
  | eof
deriving DecidableEq, Repr

inductive FElem where
  | sym (g : GSym)
  | eps
deriving DecidableEq, Repr

/-- A grammar: productions `(lhs, rhs)` in registration order, and the
terminal names (`tokenTypes()`). -/
structure Gram where
  prods : List (String × List String)
  tokens : List String
deriving DecidableEq, Repr

/-- `cls.tokenTypes() | set([EOF])`. -/
def tokSyms (g : Gram) : List GSym := g.tokens.map GSym.s ++ [GSym.eof]

abbrev FirstMap := GSym → Finset FElem

/-- The initial table: `FIRST(t) = {t}` for each terminal and the
sentinel. -/
def initFirst (g : Gram) : FirstMap :=
  fun x => if x ∈ tokSyms g then {FElem.sym x} else ∅

def updF (m : FirstMap) (nt : String) (v : Finset FElem) : FirstMap :=
  fun x => if x = GSym.s nt then v else m x

/-- The inner symbol walk of the fix-point loop (grammar.py 165-174): add
the whole of `FIRST(Xᵢ)` — ε included — to `FIRST(nt)`, stopping at the
first `Xᵢ` with ε ∉ `FIRST(Xᵢ)`; if every symbol was nullable (or the
right-hand side is empty), add ε. -/
def procSyms (nt : String) : FirstMap → List String → FirstMap
  | m, [] => updF m nt (insert FElem.eps (m (GSym.s nt)))
  | m, sym :: rest =>
    if FElem.eps ∈ m (GSym.s sym) then
      procSyms nt (updF m nt (m (GSym.s nt) ∪ m (GSym.s sym))) rest
    else updF m nt (m (GSym.s nt) ∪ m (GSym.s sym))

/-- `Grammar.nonterminals()` in a fixed enumeration order. -/
def ntList (g : Gram) : List String :=
  (g.prods.map (·.1) ++
    (g.prods.flatMap (·.2)).filter (fun x => decide (x ∉ g.tokens))).dedup

/-- Productions grouped by nonterminal, as the nested loops visit them. -/
def roundProds (g : Gram) : List (String × List String) :=
  (ntList g).flatMap (fun nt => g.prods.filter (fun p => p.1 = nt))

/-- One pass of the `while True` loop over all nonterminals and their
productions, mutating the table in place as Python does. -/
def roundStep (g : Gram) (m : FirstMap) : FirstMap :=
  (roundProds g).foldl (fun m p => procSyms p.1 m p.2) m

/-- The symbols whose FIRST entries the computation can touch. -/
def domSyms (g : Gram) : List GSym := tokSyms g ++ (ntList g).map GSym.s

/-- Table equality over the relevant symbols (`prev == allFirsts`: off this
domain both tables are ∅). -/
def eqOnDom (g : Gram) (m m' : FirstMap) : Bool :=
  (domSyms g).all (fun x => m x = m' x)

/-- The fuelled `while True:` loop; `some` is returned on convergence. -/
def prepIter (g : Gram) : Nat → FirstMap → Option FirstMap
  | 0, _ => none
  | f + 1, m =>
    if eqOnDom g m (roundStep g m) then some m
    else prepIter g f (roundStep g m)

/-- `Grammar.prepare`'s FIRST computation. -/
def prepare (g : Gram) (fuel : Nat) : Option FirstMap :=
  prepIter g fuel (initFirst g)

/-- Modelled from the spec: the standard FIRST recurrence the claim
describes — only the non-ε members of `FIRST(Xᵢ)` are copied into
`FIRST(A)`, and ε is added only when every right-hand-side symbol is
nullable or the right-hand side is empty.  This is the comparison point
for the correction of C8; everything else matches `procSyms`. -/
def stdProcSyms (nt : String) : FirstMap → List String → FirstMap
  | m, [] => updF m nt (insert FElem.eps (m (GSym.s nt)))
  | m, sym :: rest =>
    if FElem.eps ∈ m (GSym.s sym) then
      stdProcSyms nt (updF m nt (m (GSym.s nt) ∪ ((m (GSym.s sym)).erase FElem.eps))) rest
    else updF m nt (m (GSym.s nt) ∪ ((m (GSym.s sym)).erase FElem.eps))

def stdRoundStep (g : Gram) (m : FirstMap) : FirstMap :=
  (roundProds g).foldl (fun m p => stdProcSyms p.1 m p.2) m

def stdPrepIter (g : Gram) : Nat → FirstMap → Option FirstMap
  | 0, _ => none
  | f + 1, m =>
    if eqOnDom g m (stdRoundStep g m) then some m
    else stdPrepIter g f (stdRoundStep g m)

def stdPrepare (g : Gram) (fuel : Nat) : Option FirstMap :=
  stdPrepIter g fuel (initFirst g)

/-- The grammar `A → B c; B → ε` over terminal `c`. -/
def gEx : Gram := ⟨[("A", ["B", "c"]), ("B", [])], ["c"]⟩

/-- Counterexample to C8 as stated: on `A → B c; B → ε` the code computes
`FIRST(A) = {c, ε}` — the loop copies ε out of `FIRST(B)` into `FIRST(A)`
even though the following symbol `c` is not nullable — whereas the least
fixed point of the standard recurrence the claim describes has
`FIRST(A) = {c}` without ε. -/
theorem C8_eps_leak_counterexample :
    (prepare gEx 10).isSome = true ∧
    ((prepare gEx 10).getD (initFirst gEx)) (GSym.s "A") =
      {FElem.sym (GSym.s "c"), FElem.eps} ∧
    (stdPrepare gEx 10).isSome = true ∧
    ((stdPrepare gEx 10).getD (initFirst gEx)) (GSym.s "A") =
      {FElem.sym (GSym.s "c")} ∧
    FElem.eps ∈ ((prepare gEx 10).getD (initFirst gEx)) (GSym.s "A") ∧
    FElem.eps ∉ ((stdPrepare gEx 10).getD (initFirst gEx)) (GSym.s "A") := by
  decide

lemma procSyms_ne (nt : String) (x : GSym) (hx : ¬ x = GSym.s nt) :
    ∀ (syms : List String) (m : FirstMap), procSyms nt m syms x = m x := by
  intro syms
  induction syms with
  | nil =>
    intro m
    show updF m nt _ x = m x
    unfold updF
    rw [if_neg hx]
  | cons sym rest ih =>
    intro m
    simp only [procSyms]
    split
    · rw [ih]
      unfold updF
      rw [if_neg hx]
    · unfold updF
      rw [if_neg hx]

lemma foldl_proc_ne (x : GSym) :
    ∀ (ps : List (String × List String)) (m : FirstMap),
      (∀ p ∈ ps, ¬ x = GSym.s p.1) →
      (ps.foldl (fun m p => procSyms p.1 m p.2) m) x = m x := by
  intro ps
  induction ps with
  | nil => intro m _; rfl
  | cons p rest ih =>
    intro m h
    rw [List.foldl_cons, ih _ (fun q hq => h q (List.mem_cons_of_mem p hq)),
        procSyms_ne p.1 x (h p (List.mem_cons_self _ _)) p.2 m]

lemma roundProds_sub (g : Gram) {p : String × List String}
    (hp : p ∈ roundProds g) : p ∈ g.prods := by
  unfold roundProds at hp
  obtain ⟨nt, _, hp2⟩ := List.mem_flatMap.1 hp
  exact (List.mem_filter.1 hp2).1

lemma roundStep_term_preserved (g : Gram) (m : FirstMap)
    (hdisj : ∀ p ∈ g.prods, p.1 ∉ g.tokens) :
    (∀ t ∈ g.tokens, roundStep g m (GSym.s t) = m (GSym.s t)) ∧
    roundStep g m GSym.eof = m GSym.eof := by
  constructor
  · intro t ht
    apply foldl_proc_ne
    intro p hp he
    have : t = p.1 := by injection he
    exact hdisj p (roundProds_sub g hp) (this ▸ ht)
  · apply foldl_proc_ne
    intro p hp he
    cases he

lemma prepIter_fix (g : Gram) :
    ∀ (f : Nat) (m0 m : FirstMap), prepIter g f m0 = some m →
      eqOnDom g m (roundStep g m) = true := by
  intro f
  induction f with
  | zero => intro m0 m h; cases h
  | succ f ih =>
    intro m0 m h
    unfold prepIter at h
    split at h
    · cases h
      assumption
    · exact ih _ m h

lemma prepIter_terms (g : Gram) (hdisj : ∀ p ∈ g.prods, p.1 ∉ g.tokens) :
    ∀ (f : Nat) (m0 m : FirstMap),
      (∀ t ∈ g.tokens, m0 (GSym.s t) = {FElem.sym (GSym.s t)}) →
      m0 GSym.eof = {FElem.sym GSym.eof} →
      prepIter g f m0 = some m →
      (∀ t ∈ g.tokens, m (GSym.s t) = {FElem.sym (GSym.s t)}) ∧
      m GSym.eof = {FElem.sym GSym.eof} := by
  intro f
  induction f with
  | zero => intro m0 m _ _ h; cases h
  | succ f ih =>
    intro m0 m h1 h2 h
    unfold prepIter at h
    split at h
    · cases h
      exact ⟨h1, h2⟩
    · refine ih _ m ?_ ?_ h
      · intro t ht
        rw [(roundStep_term_preserved g m0 hdisj).1 t ht]
        exact h1 t ht
      · rw [(roundStep_term_preserved g m0 hdisj).2]
        exact h2

lemma initFirst_terms (g : Gram) :
    (∀ t ∈ g.tokens, initFirst g (GSym.s t) = {FElem.sym (GSym.s t)}) ∧
    initFirst g GSym.eof = {FElem.sym GSym.eof} := by
  constructor
  · intro t ht
    have hmem : GSym.s t ∈ tokSyms g := by
      unfold tokSyms
      exact List.mem_append_left _ (List.mem_map.2 ⟨t, ht, rfl⟩)
    unfold initFirst
    rw [if_pos hmem]
  · have hmem : GSym.eof ∈ tokSyms g := by
      unfold tokSyms
      exact List.mem_append_right _ (List.mem_singleton.2 rfl)
    unfold initFirst
    rw [if_pos hmem]

/-- Claim C8 as amended: when no production is named after a terminal,
grammar preparation yields FIRST sets with `FIRST(t) = {t}` for every
terminal including the end-of-input sentinel, and the computed table is a
fix point of the code's own recurrence: running one more iteration leaves
every FIRST set equal.  (The code's recurrence is not the standard one the
claim stated: it copies ε from `FIRST(X₁)` into `FIRST(A)` whenever
ε ∈ `FIRST(X₁)`, even when a later symbol of the right-hand side is not
nullable — see the counterexample.) -/
theorem C8_first_terminals_and_fixpoint (g : Gram) (fuel : Nat) (m : FirstMap)
    (hdisj : ∀ p ∈ g.prods, p.1 ∉ g.tokens)
    (h : prepare g fuel = some m) :
    (∀ t ∈ g.tokens, m (GSym.s t) = {FElem.sym (GSym.s t)}) ∧
    (m GSym.eof = {FElem.sym GSym.eof}) ∧
    (eqOnDom g m (roundStep g m) = true) := by
  have hterm := prepIter_terms g hdisj fuel (initFirst g) m
    (initFirst_terms g).1 (initFirst_terms g).2 h
  exact ⟨hterm.1, hterm.2, prepIter_fix g fuel _ m h⟩

/-- Witness for C8 at the concrete grammar `A → B c; B → ε`. -/
theorem C8_first_terminals_and_fixpoint_witness :
    (∀ p ∈ gEx.prods, p.1 ∉ gEx.tokens) ∧
    ((∀ t ∈ gEx.tokens,
        ((prepare gEx 10).getD (initFirst gEx)) (GSym.s t) = {FElem.sym (GSym.s t)}) ∧
     (((prepare gEx 10).getD (initFirst gEx)) GSym.eof = {FElem.sym GSym.eof}) ∧
     (eqOnDom gEx ((prepare gEx 10).getD (initFirst gEx))
        (roundStep gEx ((prepare gEx 10).getD (initFirst gEx))) = true)) :=
  ⟨by decide, C8_first_terminals_and_fixpoint gEx 10 _ (by decide) rfl⟩
